import Mathlib

/-!
Verification development for the cpa_websearch_proxy repository (Go).

The Go sources are shallowly embedded: JSON payloads become an inductive
`Json` value (numbers are modelled as integers; none of the verified
properties depend on floating point), the gjson accessor library is
modelled by `Json.getKey` / `Json.gstr` / `Json.garr` / `Json.gint`
following its documented semantics, and every stateful or networked
operation (HTTP attempts, token refresh, URL resolution, credential
rotation) is modelled by explicit state passing plus oracle functions
that stand for the network's answers.
-/

namespace CPAProxy

/-- Model of a JSON document as parsed by the tidwall/gjson library.
Numbers are modelled as integers (all numeric fields used by the proxy
are token counts, indices and status codes). -/
inductive Json where
  | null : Json
  | bool : Bool → Json
  | num : Int → Json
  | str : String → Json
  | arr : List Json → Json
  | obj : List (String × Json) → Json
deriving Repr, Inhabited

/-- Field / index access, the model of one step of a gjson path:
an object yields the first binding of the key, an array indexed with a
numeric key yields that element, anything else yields the missing value. -/
def Json.getKey (j : Json) (k : String) : Json :=
  match j with
  | .obj kvs =>
    match kvs.find? (fun kv => kv.1 = k) with
    | some kv => kv.2
    | none => .null
  | .arr xs =>
    match k.toNat? with
    | some i => xs.getD i .null
    | none => .null
  | _ => .null

/-- Multi-step gjson path access (`a.b.c`). -/
def Json.getPath (j : Json) (ks : List String) : Json :=
  ks.foldl Json.getKey j

/-- Model of gjson `Result.String()`: null/missing stringify to the empty
string, booleans and numbers to their textual form, strings to themselves.
Composite values stringify in gjson to their raw JSON text; the model
returns a canonical rendering (no verified property depends on it). -/
def Json.gstr : Json → String
  | .null => ""
  | .bool true => "true"
  | .bool false => "false"
  | .num n => toString n
  | .str s => s
  | .arr _ => "[...]"
  | .obj _ => "\x7b...\x7d"

/-- Model of gjson `Result.Int()`. -/
def Json.gint : Json → Int
  | .null => 0
  | .bool true => 1
  | .bool false => 0
  | .num n => n
  | .str s => (s.toInt?).getD 0
  | .arr _ => 0
  | .obj _ => 0

/-- Model of gjson `Result.IsArray()`. -/
def Json.isArr : Json → Bool
  | .arr _ => true
  | _ => false

/-- Model of gjson `Result.Array()`: an array yields its elements, a
missing / null value the empty list, any other single value a one
element list. -/
def Json.garr : Json → List Json
  | .arr xs => xs
  | .null => []
  | v => [v]

/-- Model of gjson `Result.Exists()` (a literal JSON null is conflated
with a missing value; the proxy never distinguishes the two). -/
def Json.gexists : Json → Bool
  | .null => false
  | _ => true

/-- Whether `l₁` occurs contiguously inside `l₂`. -/
def listInfixOf [BEq α] (l₁ l₂ : List α) : Bool :=
  match l₂ with
  | [] => l₁.isEmpty
  | _ :: t => l₁.isPrefixOf l₂ || listInfixOf l₁ t

/-- Model of Go `strings.Contains`. -/
def goContains (s sub : String) : Bool :=
  listInfixOf sub.toList s.toList

/-- Model of Go `strings.HasPrefix`. -/
def goHasPrefixOf (s pre : String) : Bool :=
  pre.toList.isPrefixOf s.toList

/-- Model of Go `strings.HasSuffix`. -/
def goHasSuffixOf (s suf : String) : Bool :=
  suf.toList.isSuffixOf s.toList

/-- Model of Go `strings.TrimRight(s, "/")`. -/
def goTrimRightSlash (s : String) : String :=
  ⟨(s.toList.reverse.dropWhile (fun c => c = '/')).reverse⟩

/-- ASCII lowercasing of one character (Go `strings.ToLower` restricted
to ASCII, which is all the Claude-marker check depends on). -/
def charLower (c : Char) : Char :=
  if 65 ≤ c.toNat ∧ c.toNat ≤ 90 then Char.ofNat (c.toNat + 32) else c

/-- Model of Go `strings.ToLower`. -/
def goToLower (s : String) : String :=
  ⟨s.toList.map charLower⟩

/-! ## internal/detector.go -/

/-- Embedding of `HasWebSearchTool` (internal/detector.go): the payload's
`tools` field must be an array holding an entry whose `type` starts with
`web_search`. -/
def HasWebSearchTool (payload : Json) : Bool :=
  let tools := payload.getKey "tools"
  if !tools.isArr then false
  else tools.garr.any (fun tool => goHasPrefixOf ((tool.getKey "type").gstr) "web_search")

/-- Embedding of `GetModel` (internal/detector.go): the `model` field,
defaulting to `claude-3-5-sonnet-20241022` when absent or empty. -/
def GetModel (payload : Json) : String :=
  let model := (payload.getKey "model").gstr
  if model = "" then "claude-3-5-sonnet-20241022" else model

/-- Embedding of `IsClaudeModel` (internal/detector.go). -/
def IsClaudeModel (model : String) : Bool :=
  goContains (goToLower model) "claude"

/-- Embedding of `IsStreamingRequest` (internal/detector.go). -/
def IsStreamingRequest (payload : Json) : Bool :=
  match payload.getKey "stream" with
  | .bool b => b
  | _ => false

/-! ## proxy.go — the gateway dispatcher -/

/-- The 64 MiB request body cap from proxy.go. -/
def maxRequestBodyBytes : Nat := 64 * 1024 * 1024

/-- An inbound HTTP request: method, URL path, parsed body and the raw
body's size in bytes (used only for the 413 size check). -/
structure HTTPRequest where
  method : String
  path : String
  body : Json
  bodyBytes : Nat
deriving Repr

/-- What `ServeHTTP` does with a request.  `passthroughUntouched` is the
method/path mismatch branch (the request is proxied with its body stream
unread), `passthroughBody` the re-assembled forward of a read body, and
`webSearch` entry into the search pipeline. -/
inductive ServeOutcome where
  | passthroughUntouched
  | tooLarge
  | passthroughBody (body : Json)
  | webSearch (body : Json) (model : String)
deriving Repr

/-- Embedding of the routing logic of `ServeHTTP` (proxy.go): POST to a
path whose slash-trimmed form ends in `/messages`, body under the size
cap, Claude model and a web_search tool entry route to the pipeline;
everything else is forwarded. -/
def ServeHTTP (r : HTTPRequest) : ServeOutcome :=
  let path := goTrimRightSlash r.path
  if r.method ≠ "POST" ∨ ¬ goHasSuffixOf path "/messages" then
    .passthroughUntouched
  else if maxRequestBodyBytes < r.bodyBytes then
    .tooLarge
  else
    let model := GetModel r.body
    if ¬ IsClaudeModel model ∨ ¬ HasWebSearchTool r.body then
      .passthroughBody r.body
    else
      .webSearch r.body model

/-- Whether an outcome dispatches a backend web search (only the
`webSearch` branch of `ServeHTTP` calls `ExecuteWebSearch`). -/
def ServeOutcome.searchDispatched : ServeOutcome → Bool
  | .webSearch _ _ => true
  | _ => false

/-! ## main.go — errors and the search executor's retry loop -/

/-- An error escaping `executeRequest` (main.go): either the typed
`AuthError` raised on HTTP 401/403, or any other error, carried as its
textual description. -/
inductive GoErr where
  | authError (status : Nat) (bodySHA : String) (bodyBytes : Nat)
  | other (msg : String)
deriving Repr, DecidableEq

/-- The auth-related keyword list of `isAuthError` (main.go). -/
def authKeywords : List String :=
  ["401", "403",
   "unauthorized", "Unauthorized",
   "forbidden", "Forbidden",
   "invalid_grant", "invalid_token",
   "token expired", "Token expired",
   "authentication", "Authentication"]

/-- Embedding of `isAuthError` (main.go): a typed `AuthError` is always
an auth failure; any other error is classified by scanning its text for
the auth keywords. -/
def isAuthError : GoErr → Bool
  | .authError _ _ _ => true
  | .other msg => authKeywords.any (fun kw => goContains msg kw)

/-- What `ExecuteWebSearch` can return. -/
inductive SearchOutcome where
  | success (body : String)
  | emptyPayload
  | nonAuthError (e : GoErr)
  | allAuthFailed (last : GoErr)
  | maxRetriesExceeded (last : Option GoErr)
deriving Repr, DecidableEq

/-- Observable actions of the retry loop: a backend attempt, the token
invalidation inside `MarkAuthFailed`, and the credential rotation with
its reported result. -/
inductive SearchEvent where
  | attempted (k : Nat)
  | tokenInvalidated (k : Nat)
  | rotated (k : Nat) (ok : Bool)
deriving Repr, DecidableEq

/-- The retry loop of `ExecuteWebSearch` (main.go).  `exec k` is the
outcome of the k-th `executeRequest` call, `rot k` the boolean reported
by `MarkAuthFailed` after a failed attempt k.  Returns the outcome, the
number of backend attempts made, and the event trace.  `fuel` is the
number of loop iterations left (`maxRetries + 1 - attempt`). -/
def searchLoop (exec : Nat → Except GoErr String) (rot : Nat → Bool) :
    Nat → Nat → Option GoErr → SearchOutcome × Nat × List SearchEvent
  | _, 0, last => (.maxRetriesExceeded last, 0, [])
  | attempt, fuel + 1, _ =>
    match exec attempt with
    | .ok body => (.success body, 1, [.attempted attempt])
    | .error e =>
      if isAuthError e then
        if rot attempt then
          let r := searchLoop exec rot (attempt + 1) fuel (some e)
          (r.1, r.2.1 + 1,
            .attempted attempt :: .tokenInvalidated attempt :: .rotated attempt true :: r.2.2)
        else
          (.allAuthFailed e, 1,
            [.attempted attempt, .tokenInvalidated attempt, .rotated attempt false])
      else
        (.nonAuthError e, 1, [.attempted attempt])

/-- The `maxRetries` constant of `NewGeminiClient` (main.go). -/
def maxRetries : Nat := 5

/-- Embedding of `ExecuteWebSearch` (main.go): empty payload is rejected
up front, otherwise the retry loop runs with attempts `0..maxRetries`. -/
def ExecuteWebSearch (payloadLen : Nat) (exec : Nat → Except GoErr String)
    (rot : Nat → Bool) : SearchOutcome × Nat × List SearchEvent :=
  if payloadLen = 0 then (.emptyPayload, 0, [])
  else searchLoop exec rot 0 (maxRetries + 1) none

/-! ## token.go — the access-token cache -/

/-- The token manager's mutable state: the cached bearer token and its
absolute expiry (seconds; the empty token means no cached token). -/
structure TMState where
  accessToken : String
  expiry : Int
deriving Repr, DecidableEq

/-- What the OAuth token endpoint answers to a refresh request: a network
failure, a body carrying a structured `error` field, a non-2xx status, or
a fresh token with its lifetime in seconds. -/
inductive RefreshOutcome where
  | netErr (msg : String)
  | errField (e : String) (desc : String)
  | httpStatus (status : Int) (body : String)
  | ok (accessToken : String) (expiresIn : Int)
deriving Repr

/-- Result of one `GetAccessToken` / `refresh` call: the returned token
or error text, the new cache state, and how many refresh HTTP requests
were issued. -/
structure TokenResult where
  result : Except String String
  state : TMState
  httpCalls : Nat
deriving Repr

/-- The cached-token validity check of token.go: non-empty token and
`now + 5 minutes` strictly before the expiry. -/
def tmValid (st : TMState) (now : Int) : Bool :=
  st.accessToken ≠ "" && now + 300 < st.expiry

/-- Embedding of `refresh` (token.go): double-checked validity under the
write lock, then a form POST to the token endpoint.  `refreshTok` is the
credential store's current refresh secret (none when no auth is
configured), `outcome` the endpoint's answer. -/
def refresh (st : TMState) (now : Int) (refreshTok : Option String)
    (outcome : RefreshOutcome) : TokenResult :=
  if tmValid st now then ⟨.ok st.accessToken, st, 0⟩
  else
    match refreshTok with
    | none => ⟨.error "no refresh token configured", st, 0⟩
    | some _ =>
      match outcome with
      | .netErr m => ⟨.error ("token refresh request failed: " ++ m), st, 1⟩
      | .errField e d => ⟨.error ("token refresh failed: " ++ e ++ " - " ++ d), st, 1⟩
      | .httpStatus s b =>
        ⟨.error ("token refresh failed with status " ++ toString s ++ ": " ++ b), st, 1⟩
      | .ok tok expiresIn => ⟨.ok tok, ⟨tok, now + expiresIn⟩, 1⟩

/-- Embedding of `GetAccessToken` (token.go): fast-path read of a valid
cached token, else `refresh`. -/
def GetAccessToken (st : TMState) (now : Int) (refreshTok : Option String)
    (outcome : RefreshOutcome) : TokenResult :=
  if tmValid st now then ⟨.ok st.accessToken, st, 0⟩
  else refresh st now refreshTok outcome

/-- N concurrent `GetAccessToken` callers under the worst-case schedule:
every caller has already raced past the shared-lock fast path, so each
executes the `refresh` critical section in turn (the mutex serializes
them).  Returns every caller's result, the final state, and the total
number of refresh HTTP requests. -/
def runRefreshCallers (n : Nat) (st : TMState) (now : Int)
    (refreshTok : Option String) (outcome : RefreshOutcome) :
    List (Except String String) × TMState × Nat :=
  match n with
  | 0 => ([], st, 0)
  | n + 1 =>
    let r := refresh st now refreshTok outcome
    let rest := runRefreshCallers n r.state now refreshTok outcome
    (r.result :: rest.1, rest.2.1, r.httpCalls + rest.2.2)

/-! ## auth_manager.go — the credential store -/

/-- Embedding of `AuthEntry` (auth_manager.go). -/
structure AuthEntry where
  filePath : String
  refreshToken : String
  projectID : String
  failCount : Nat
  lastFail : Int
deriving Repr, DecidableEq, Inhabited

/-- Embedding of the `AuthManager` state. -/
structure AMState where
  entries : List AuthEntry
  currentIndex : Nat
  failCooldown : Int
deriving Repr

/-- The availability test of the failover scan: never failed, or the
cooldown has elapsed since the last failure. -/
def amAvailable (e : AuthEntry) (now cooldown : Int) : Bool :=
  e.failCount = 0 || cooldown ≤ now - e.lastFail

/-- The forward scan of `MarkCurrentFailed` (auth_manager.go): advance
the index (wrapping), stop at the first available entry; on returning to
the start, re-allow the starting entry only if its own cooldown has
elapsed (its `lastFail` was just set to `now`).  `fuel` bounds the walk
by the ring size. -/
def scanNext (entries : List AuthEntry) (cooldown now : Int) (start : Nat) :
    Nat → Nat → Bool × Nat
  | _, 0 => (false, start)
  | i, fuel + 1 =>
    match entries[(i + 1) % entries.length]? with
    | none => (false, (i + 1) % entries.length)
    | some e =>
      if (i + 1) % entries.length = start then
        (decide (cooldown ≤ now - e.lastFail), (i + 1) % entries.length)
      else if amAvailable e now cooldown then (true, (i + 1) % entries.length)
      else scanNext entries cooldown now start ((i + 1) % entries.length) fuel

/-- Embedding of `MarkCurrentFailed` (auth_manager.go): bump the current
entry's failure counter, stamp its last failure with the current time,
then scan forward for a usable entry. -/
def MarkCurrentFailed (st : AMState) (now : Int) : Bool × AMState :=
  if st.entries.length = 0 then (false, st)
  else
    match st.entries[st.currentIndex]? with
    | none => (false, st)
    | some entry =>
      let entry' := { entry with failCount := entry.failCount + 1, lastFail := now }
      let entries' := st.entries.set st.currentIndex entry'
      let r := scanNext entries' st.failCooldown now st.currentIndex st.currentIndex
        entries'.length
      (r.1, { st with entries := entries', currentIndex := r.2 })

/-! ## auth_manager.go (part two) — the URL resolver -/

/-- The Vertex grounding redirect marker checked by
`isVertexRedirectURL`. -/
def vertexRedirectMarker : String :=
  "https://vertexaisearch.cloud.google.com/grounding-api-redirect/"

/-- Embedding of `isVertexRedirectURL`. -/
def isVertexRedirectURL (u : String) : Bool :=
  goHasPrefixOf u vertexRedirectMarker

/-- The resolver's view of the network: for each URL the final request
URL reached by the HEAD / GET attempt, or none on a transport error or
timeout. -/
structure ResolveNet where
  headFinal : String → Option String
  getFinal : String → Option String

/-- The GET fallback inside `doResolve` (auth_manager.go): accept any
non-empty final URL, else fall back to the original.  The second
component counts network attempts made so far (HEAD already happened). -/
def doResolveGet (net : ResolveNet) (u : String) : String × Nat :=
  match net.getFinal u with
  | some f => if f ≠ "" then (f, 2) else (u, 2)
  | none => (u, 2)

/-- Embedding of `doResolve` (auth_manager.go): HEAD first, accepting a
non-empty final URL different from the original; otherwise retry with
GET. -/
def doResolve (net : ResolveNet) (u : String) : String × Nat :=
  match net.headFinal u with
  | some f => if f ≠ "" ∧ f ≠ u then (f, 1) else doResolveGet net u
  | none => doResolveGet net u

/-- Embedding of `ResolveURL` (auth_manager.go): non-redirect URLs pass
through untouched, a cache hit short-circuits, otherwise `doResolve`
runs.  The second component is the number of network requests issued. -/
def ResolveURL (cache : List (String × String)) (net : ResolveNet) (u : String) :
    String × Nat :=
  if ¬ isVertexRedirectURL u then (u, 0)
  else
    match cache.find? (fun kv => kv.1 = u) with
    | some kv => (kv.2, 0)
    | none => doResolve net u

/-- The parallel-resolution cap of `ResolveURLs`. -/
def maxParallelResolves : Nat := 10

/-- The indexed walk of `ResolveURLs`: positions below the cap are
resolved, positions at or beyond it keep the original URL. -/
def resolveURLsFrom (cache : List (String × String)) (net : ResolveNet) :
    Nat → List String → List String
  | _, [] => []
  | i, u :: rest =>
    (if i < maxParallelResolves then (ResolveURL cache net u).1 else u)
      :: resolveURLsFrom cache net (i + 1) rest

/-- Embedding of `ResolveURLs` (auth_manager.go). -/
def ResolveURLs (cache : List (String × String)) (net : ResolveNet)
    (urls : List String) : List String :=
  resolveURLsFrom cache net 0 urls

/-! ## internal/converter.go — response extraction -/

/-- One entry of the `web_search_tool_result` content list (the Go code
keeps it as a string map; the keys used downstream are `url`, `title`
and `encrypted_content`, with the absent-key case read back as the empty
string). -/
structure WebResult where
  url : String
  title : String
  encryptedContent : String
deriving Repr, DecidableEq, Inhabited

/-- Model of `generateEncryptedContent` (internal/converter.go): the
base64-encoded JSON object binding url and title.  The model keeps the
binding as a tagged pairing; no verified claim depends on the encoding's
exact bytes, only on which url/title it is computed from. -/
def generateEncryptedContent (url title : String) : String :=
  "b64json(" ++ url ++ "; " ++ title ++ ")"

/-- Embedding of `extractTextContent` (internal/converter.go): wrapped
shape first, flat shape as fallback; concatenation of every `text`
fragment of the first candidate's parts. -/
def extractTextContent (resp : Json) : String :=
  let parts0 := resp.getPath ["response", "candidates", "0", "content", "parts"]
  let parts := if ¬ parts0.isArr
    then resp.getPath ["candidates", "0", "content", "parts"] else parts0
  parts.garr.foldl
    (fun acc part =>
      if (part.getKey "text").gexists then acc ++ (part.getKey "text").gstr else acc)
    ""

/-- Embedding of `extractGroundingMetadata` (internal/converter.go). -/
def extractGroundingMetadata (resp : Json) : Json :=
  let gm := resp.getPath ["response", "candidates", "0", "groundingMetadata"]
  if ¬ gm.gexists then resp.getPath ["candidates", "0", "groundingMetadata"] else gm

/-- Embedding of `getUsageField` (internal/converter.go). -/
def getUsageField (resp : Json) (field : String) : Int :=
  let v := (resp.getPath ["response", "usageMetadata", field]).gint
  if v = 0 then (resp.getPath ["usageMetadata", field]).gint else v

/-- Embedding of `extractWebSearchResultsInternal`
(internal/converter.go): one result per grounding chunk carrying a `web`
sub-object, in chunk order. -/
def extractWebSearchResultsInternal (gm : Json) : List WebResult :=
  let chunks := gm.getKey "groundingChunks"
  if ¬ chunks.isArr then []
  else
    chunks.garr.filterMap (fun chunk =>
      let web := chunk.getKey "web"
      if ¬ web.gexists then none
      else
        let title := if (web.getKey "title").gexists then (web.getKey "title").gstr else ""
        let url := if (web.getKey "uri").gexists then (web.getKey "uri").gstr else ""
        some ⟨url, title, generateEncryptedContent url title⟩)

/-- Embedding of `extractWebSearchResultsWithResolve`
(internal/converter.go): resolve the result URLs as a batch, substitute
any changed non-empty resolution, and recompute the opaque blob from the
final URL. -/
def extractWebSearchResultsWithResolve (cache : List (String × String))
    (net : ResolveNet) (gm : Json) : List WebResult :=
  let results := extractWebSearchResultsInternal gm
  if results.isEmpty then results
  else
    let urls := results.map (fun r => r.url)
    let resolved := ResolveURLs cache net urls
    (results.zip resolved).map (fun p =>
      let url := if p.2 ≠ "" ∧ p.2 ≠ p.1.url then p.2 else p.1.url
      { url := url, title := p.1.title,
        encryptedContent := generateEncryptedContent url p.1.title })

/-! ## citations (the unnamed citation source file) -/

/-- Embedding of the `Citation` struct. -/
structure Citation where
  ctype : String
  citedText : String
  url : String
  title : String
  encryptedIndex : String
deriving Repr, DecidableEq

/-- Model of the base64-encoded JSON `encrypted_index` payload binding
url, title and cited text (same modelling note as
`generateEncryptedContent`). -/
def generateEncryptedIndex (url title citedText : String) : String :=
  "b64json(" ++ url ++ "; " ++ title ++ "; " ++ citedText ++ ")"

/-- Embedding of `extractGroundingSupports` (citation source file): the
four candidate paths tried in fixed order. -/
def extractGroundingSupports (resp : Json) : Json :=
  let gs1 := resp.getPath ["response", "candidates", "0", "groundingSupports"]
  if gs1.isArr then gs1
  else
    let gs2 := resp.getPath ["candidates", "0", "groundingSupports"]
    if gs2.isArr then gs2
    else
      let gs3 := resp.getPath
        ["response", "candidates", "0", "groundingMetadata", "groundingSupports"]
      if gs3.isArr then gs3
      else resp.getPath ["candidates", "0", "groundingMetadata", "groundingSupports"]

/-- Embedding of `buildCitation` (citation source file): requires
non-empty cited text, at least one grounding chunk index, the first
index in range, and a non-empty URL on the referenced result; otherwise
yields nothing. -/
def buildCitation (support : Json) (results : List WebResult) : Option Citation :=
  let citedText := (support.getPath ["segment", "text"]).gstr
  if citedText = "" then none
  else
    match (support.getKey "groundingChunkIndices").garr with
    | [] => none
    | first :: _ =>
      let idx := first.gint
      if idx < 0 ∨ (results.length : Int) ≤ idx then none
      else
        let result := results.getD idx.toNat default
        if result.url = "" then none
        else
          some ⟨"web_search_result_location", citedText, result.url, result.title,
            generateEncryptedIndex result.url result.title citedText⟩

/-- The JSON rendering of one citation object. -/
def citationJson (c : Citation) : Json :=
  .obj [("type", .str c.ctype), ("cited_text", .str c.citedText),
    ("url", .str c.url), ("title", .str c.title),
    ("encrypted_index", .str c.encryptedIndex)]

/-- Embedding of `buildCitationTextBlocks` (citation source file): one
empty-text block per surviving citation, invalid supports silently
skipped. -/
def buildCitationTextBlocks (supports : Json) (results : List WebResult) : List Json :=
  if ¬ supports.isArr then []
  else
    supports.garr.filterMap (fun s =>
      (buildCitation s results).map (fun c =>
        Json.obj [("type", .str "text"), ("text", .str ""),
          ("citations", .arr [citationJson c])]))

/-- Embedding of `buildCitationsForSSE` (citation source file). -/
def buildCitationsForSSE (supports : Json) (results : List WebResult) : List Citation :=
  if ¬ supports.isArr then []
  else supports.garr.filterMap (fun s => buildCitation s results)

/-! ## internal/gemini.go — the request transformer -/

/-- A backend content part (`GeminiPart`): text, function call, or
function response. -/
inductive GPart where
  | text (t : String)
  | functionCall (name : String) (args : Option Json) (id : String)
  | functionResponse (name : String) (result : String) (id : String)
deriving Repr

/-- A backend content entry (`GeminiContent`). -/
structure GContent where
  role : String
  parts : List GPart
deriving Repr

/-- Go map assignment on an association list: later insertions of the
same key overwrite. -/
def mapInsert (m : List (String × String)) (k v : String) : List (String × String) :=
  match m with
  | [] => [(k, v)]
  | kv :: rest => if kv.1 = k then (k, v) :: rest else kv :: mapInsert rest k v

/-- Go map read: the stored value, or the zero value (empty string) when
the key is absent. -/
def mapGet : List (String × String) → String → String
  | [], _ => ""
  | kv :: rest, k => if kv.1 = k then kv.2 else mapGet rest k

/-- One step of the tool-id pre-pass: a `tool_use` block with non-empty
id and name records the association, everything else leaves the map
alone. -/
def tmStep (m : List (String × String)) (item : Json) : List (String × String) :=
  if (item.getKey "type").gstr = "tool_use" then
    let id := (item.getKey "id").gstr
    let name := (item.getKey "name").gstr
    if id ≠ "" ∧ name ≠ "" then mapInsert m id name else m
  else m

/-- The content blocks of one message that the pre-pass (and the
per-turn mapping) iterates over: the content array's elements, or
nothing when the content is not an array. -/
def contentItems (msg : Json) : List Json :=
  let content := msg.getKey "content"
  if ¬ content.isArr then [] else content.garr

/-- Whether a content block is a `tool_use` invocation defining the
identifier `i` (with non-empty id and name, as the pre-pass requires). -/
def definesToolId (i : String) (item : Json) : Bool :=
  (item.getKey "type").gstr = "tool_use" && (item.getKey "id").gstr = i &&
    decide ((item.getKey "id").gstr ≠ "") && decide ((item.getKey "name").gstr ≠ "")

/-- Embedding of `buildToolIdToNameMap` (internal/gemini.go): scan every
message's content array and record every `tool_use` block's id-to-name
association (both non-empty). -/
def buildToolIdToNameMap (messages : Json) : List (String × String) :=
  if ¬ messages.isArr then []
  else
    messages.garr.foldl
      (fun m msg =>
        let content := msg.getKey "content"
        if ¬ content.isArr then m
        else content.garr.foldl tmStep m)
      []

/-- Model of `json.Unmarshal` of the `tool_use` block's raw `input` into
a string map: succeeds exactly on a JSON object; every other raw value
(including the absent one) leaves the argument map nil. -/
def goUnmarshalArgs (input : Json) : Option Json :=
  match input with
  | .obj kvs => some (.obj kvs)
  | _ => none

/-- The `tool_result` content extraction of `transformContentBlock`:
string content taken whole, array content concatenating its text
items. -/
def extractToolResultContent (block : Json) : String :=
  match block.getKey "content" with
  | .str s => s
  | .arr items =>
    items.foldl
      (fun acc item =>
        if (item.getKey "type").gstr = "text" then acc ++ (item.getKey "text").gstr
        else acc)
      ""
  | _ => ""

/-- Embedding of `transformContentBlock` (internal/gemini.go): text
blocks keep non-empty non-placeholder text, `tool_use` becomes a
function call, `tool_result` a function response whose name is resolved
through the id-to-name map with the raw id as fallback; `thinking`,
`redacted_thinking`, `image` and unknown kinds are dropped. -/
def transformContentBlock (block : Json) (toolIdToName : List (String × String)) :
    List GPart :=
  let bt := (block.getKey "type").gstr
  if bt = "text" then
    let t := (block.getKey "text").gstr
    if t ≠ "" ∧ t ≠ "(no content)" then [.text t] else []
  else if bt = "tool_use" then
    [.functionCall ((block.getKey "name").gstr) (goUnmarshalArgs (block.getKey "input"))
      ((block.getKey "id").gstr)]
  else if bt = "tool_result" then
    let toolUseId := (block.getKey "tool_use_id").gstr
    let g := mapGet toolIdToName toolUseId
    let funcName := if g = "" then toolUseId else g
    [.functionResponse funcName (extractToolResultContent block) toolUseId]
  else []

/-- The per-turn mapping of `TransformMessages`: role renaming
(assistant becomes model) and per-segment mapping of the content. -/
def transformTurn (toolIdToName : List (String × String)) (msg : Json) : GContent :=
  let role := (msg.getKey "role").gstr
  let geminiRole := if role = "assistant" then "model" else role
  let parts :=
    match msg.getKey "content" with
    | .str text => if text ≠ "" then [GPart.text text] else []
    | .arr items => items.foldl (fun acc item => acc ++ transformContentBlock item toolIdToName) []
    | _ => []
  ⟨geminiRole, parts⟩

/-- The turn loop of `TransformMessages`: turns mapping to zero parts
are omitted. -/
def transformMsgList (toolIdToName : List (String × String)) : List Json → List GContent
  | [] => []
  | msg :: rest =>
    let c := transformTurn toolIdToName msg
    if c.parts.isEmpty then transformMsgList toolIdToName rest
    else c :: transformMsgList toolIdToName rest

/-- Embedding of `TransformMessages` (internal/gemini.go). -/
def TransformMessages (payload : Json) : List GContent :=
  let messages := payload.getKey "messages"
  if ¬ messages.isArr then []
  else transformMsgList (buildToolIdToNameMap messages) messages.garr

/-! ## internal/sse.go — the streaming converter -/

/-- The kinds of content block opened by a `content_block_start`
event.  Citation-bearing and answer-text blocks both carry JSON type
`text`; they are distinguished here by whether the block opens with an
empty citations array. -/
inductive BlockKind where
  | serverToolUse (id : String) (name : String)
  | webSearchToolResult (toolUseId : String) (content : List WebResult)
  | textWithCitations
  | textPlain
deriving Repr, DecidableEq

/-- Delta payloads. -/
inductive DeltaKind where
  | inputJson (pj : String)
  | citationsDelta (c : Citation)
  | textDelta (t : String)
deriving Repr, DecidableEq

/-- One SSE event of the Claude stream (each is framed on the wire as an
`event:`/`data:` pair). -/
inductive SSEEvent where
  | messageStart (msgId : String) (model : String) (inputTokens : Int)
  | blockStart (index : Nat) (b : BlockKind)
  | blockDelta (index : Nat) (d : DeltaKind)
  | blockStop (index : Nat)
  | messageDelta (inputTokens outputTokens : Int)
  | messageStop
deriving Repr, DecidableEq

/-- Model of the `partial_json` text carrying the search query. -/
def queryJsonStr (q : String) : String :=
  "\x7b\"query\":\"" ++ q ++ "\"\x7d"

/-- The rune chunking of the answer text (internal/sse.go): windows of
50 code points, so no multi-byte character is ever split across
deltas. -/
def chunkRunes (cs : List Char) : List (List Char) :=
  match cs with
  | [] => []
  | c :: rest => ((c :: rest).take 50) :: chunkRunes ((c :: rest).drop 50)
termination_by cs.length
decreasing_by simp; omega

/-- The citation open/delta/close triples, one per citation, with
consecutive block indices. -/
def citationEvents : Nat → List Citation → List SSEEvent
  | _, [] => []
  | i, c :: rest =>
    .blockStart i .textWithCitations :: .blockDelta i (.citationsDelta c)
      :: .blockStop i :: citationEvents (i + 1) rest

/-- The event assembly of `ConvertToClaudeSSEStream` (internal/sse.go)
as a function of the values extracted from the backend reply: message
start, the server_tool_use block at index 0 (with its input delta when a
search query exists), the tool-result block at index 1, one
open/delta/close triple per citation, the rune-chunked answer-text block
when the text is non-empty, then message delta and message stop. -/
def sseAssemble (msgId model toolUseId : String) (inputTokens outputTokens : Int)
    (searchQuery : String) (webSearchResults : List WebResult)
    (citations : List Citation) (textContent : String) : List SSEEvent :=
  .messageStart msgId model inputTokens
    :: .blockStart 0 (.serverToolUse toolUseId "web_search")
    :: ((if searchQuery ≠ "" then [.blockDelta 0 (.inputJson (queryJsonStr searchQuery))] else [])
      ++ .blockStop 0
      :: .blockStart 1 (.webSearchToolResult toolUseId webSearchResults)
      :: .blockStop 1
      :: (citationEvents 2 citations
        ++ (if textContent ≠ "" then
              .blockStart (2 + citations.length) .textPlain
                :: (chunkRunes textContent.toList).map
                  (fun ch => .blockDelta (2 + citations.length) (.textDelta (String.mk ch)))
                ++ [.blockStop (2 + citations.length)]
            else [])
        ++ [.messageDelta inputTokens outputTokens, .messageStop]))

/-- Embedding of `ConvertToClaudeSSEStream` (internal/sse.go).  The
randomly generated message and tool-use identifiers are passed in as
parameters. -/
def ConvertToClaudeSSEStream (model : String) (geminiResp : Json)
    (cache : List (String × String)) (net : ResolveNet)
    (msgId toolUseId : String) : List SSEEvent :=
  let textContent := extractTextContent geminiResp
  let groundingMetadata := extractGroundingMetadata geminiResp
  let inputTokens := getUsageField geminiResp "promptTokenCount"
  let outputTokens := getUsageField geminiResp "candidatesTokenCount"
  let queries := groundingMetadata.getKey "webSearchQueries"
  let searchQuery :=
    if queries.isArr then
      match queries.garr with
      | [] => ""
      | q :: _ => q.gstr
    else ""
  let webSearchResults := extractWebSearchResultsWithResolve cache net groundingMetadata
  let citations := buildCitationsForSSE (extractGroundingSupports geminiResp) webSearchResults
  sseAssemble msgId model toolUseId inputTokens outputTokens searchQuery
    webSearchResults citations textContent

/-- Whether an event is a `message_start`. -/
def SSEEvent.isMessageStart : SSEEvent → Bool
  | .messageStart _ _ _ => true
  | _ => false

/-- Whether an event is a `content_block_start`. -/
def SSEEvent.isBlockStart : SSEEvent → Bool
  | .blockStart _ _ => true
  | _ => false

/-- Whether an event is a `content_block_start` opening a
`server_tool_use` block. -/
def SSEEvent.isServerToolUseStart : SSEEvent → Bool
  | .blockStart _ (.serverToolUse _ _) => true
  | _ => false

/-- The text payload of an answer-text delta event, if any. -/
def SSEEvent.textDeltaStr : SSEEvent → Option String
  | .blockDelta _ (.textDelta t) => some t
  | _ => none

/-- Every `content_block_start` in the list is followed, strictly later
in the list, by a `content_block_stop` carrying the same index. -/
def StopsMatched (l : List SSEEvent) : Prop :=
  ∀ (p i : Nat) (b : BlockKind), l[p]? = some (SSEEvent.blockStart i b) →
    ∃ q : Nat, p < q ∧ l[q]? = some (SSEEvent.blockStop i)

/-- Concatenation of a list of strings, in order. -/
def strConcat : List String → String
  | [] => ""
  | s :: rest => s ++ strConcat rest

/-- The emission condition exactly as claim C3 states it (stated from
the spec's words, to compare against `buildCitation`): the support's
first referenced grounding-chunk index lies within `[0, len results)`
and the referenced result's URL is non-empty. -/
def citationClaimCondition (support : Json) (results : List WebResult) : Bool :=
  match (support.getKey "groundingChunkIndices").garr with
  | [] => false
  | first :: _ =>
    decide (0 ≤ first.gint) && decide (first.gint < (results.length : Int)) &&
      decide ((results.getD first.gint.toNat default).url ≠ "")

/-! # Theorems

Each claim of the specification audit gets one theorem below, with a
closed witness instance where the theorem carries hypotheses. -/

/-- C1: a request enters the web-search pipeline iff it is a POST to a
slash-trimmed path ending in `/messages` whose payload passes the Claude
model check and carries a `web_search`-prefixed tool entry; every other
request is forwarded to pass-through with the identical body and no
backend search dispatch. -/
theorem claim_c1_routing (r : HTTPRequest) (hsize : r.bodyBytes ≤ maxRequestBodyBytes) :
    ((∃ m, ServeHTTP r = .webSearch r.body m) ↔
      (r.method = "POST" ∧ goHasSuffixOf (goTrimRightSlash r.path) "/messages" = true ∧
        IsClaudeModel (GetModel r.body) = true ∧ HasWebSearchTool r.body = true)) ∧
    (¬ (r.method = "POST" ∧ goHasSuffixOf (goTrimRightSlash r.path) "/messages" = true ∧
        IsClaudeModel (GetModel r.body) = true ∧ HasWebSearchTool r.body = true) →
      (ServeHTTP r = .passthroughUntouched ∨ ServeHTTP r = .passthroughBody r.body) ∧
        (ServeHTTP r).searchDispatched = false) := by
  have hns : ¬ maxRequestBodyBytes < r.bodyBytes := by omega
  unfold ServeHTTP
  by_cases h1 : r.method = "POST" <;>
    by_cases h2 : goHasSuffixOf (goTrimRightSlash r.path) "/messages" = true <;>
      by_cases h3 : IsClaudeModel (GetModel r.body) = true <;>
        by_cases h4 : HasWebSearchTool r.body = true <;>
          simp [h1, h2, h3, h4, hns, ServeOutcome.searchDispatched]

/-- C1 witness: a concrete eligible request is routed to the pipeline. -/
theorem claim_c1_routing_witness :
    ∃ m, ServeHTTP
        ⟨"POST", "/v1/messages",
          Json.obj [("model", .str "claude-3-5-sonnet-20241022"),
            ("tools", .arr [Json.obj [("type", .str "web_search_20250305")]])], 120⟩
      = .webSearch
          (Json.obj [("model", .str "claude-3-5-sonnet-20241022"),
            ("tools", .arr [Json.obj [("type", .str "web_search_20250305")]])]) m :=
  ((claim_c1_routing _ (by decide)).1).mpr ⟨rfl, by decide, by decide, by decide⟩

/-- C10: an absent or empty model field defaults to
`claude-3-5-sonnet-20241022`, which the Claude check accepts, so a POST
to a messages path with a web_search tool and no model field is routed
to the search pipeline. -/
theorem claim_c10_default_model :
    (∀ payload : Json,
        (payload.getKey "model" = .null ∨ payload.getKey "model" = .str "") →
        GetModel payload = "claude-3-5-sonnet-20241022") ∧
    IsClaudeModel "claude-3-5-sonnet-20241022" = true ∧
    (∀ r : HTTPRequest, r.method = "POST" →
        goHasSuffixOf (goTrimRightSlash r.path) "/messages" = true →
        r.bodyBytes ≤ maxRequestBodyBytes →
        (r.body.getKey "model" = .null ∨ r.body.getKey "model" = .str "") →
        HasWebSearchTool r.body = true →
        ServeHTTP r = .webSearch r.body "claude-3-5-sonnet-20241022") := by
  have hmodel : ∀ payload : Json,
      (payload.getKey "model" = .null ∨ payload.getKey "model" = .str "") →
      GetModel payload = "claude-3-5-sonnet-20241022" := by
    intro payload h
    unfold GetModel
    rcases h with h | h <;> rw [h] <;> rfl
  refine ⟨hmodel, by decide, ?_⟩
  intro r h1 h2 h3 h4 h5
  have hns : ¬ maxRequestBodyBytes < r.bodyBytes := by omega
  have hm := hmodel r.body h4
  unfold ServeHTTP
  rw [hm]
  simp [h1, h2, h5, hns]
  decide

/-- C10 witness: a concrete model-less payload with a web_search tool is
routed to the pipeline under the default model name. -/
theorem claim_c10_default_model_witness :
    ServeHTTP
        ⟨"POST", "/v1/messages//",
          Json.obj [("tools", .arr [Json.obj [("type", .str "web_search")]])], 80⟩
      = .webSearch (Json.obj [("tools", .arr [Json.obj [("type", .str "web_search")]])])
          "claude-3-5-sonnet-20241022" :=
  claim_c10_default_model.2.2 _ rfl (by decide) (by decide) (.inl rfl) (by decide)

/-- C4: a cached token is returned without a refresh HTTP call only when
it is non-empty and its expiry is strictly more than the 5-minute margin
away; whenever the cached token misses that bar, any token that is
returned comes out of a refresh call. -/
theorem claim_c4_token_margin :
    (∀ st now refreshTok outcome t,
        (GetAccessToken st now refreshTok outcome).result = .ok t →
        (GetAccessToken st now refreshTok outcome).httpCalls = 0 →
        t = st.accessToken ∧ st.accessToken ≠ "" ∧ now + 300 < st.expiry) ∧
    (∀ st now refreshTok outcome,
        tmValid st now = false →
        ∀ t, (GetAccessToken st now refreshTok outcome).result = .ok t →
          (GetAccessToken st now refreshTok outcome).httpCalls = 1) := by
  constructor
  · intro st now refreshTok outcome t hres hcalls
    unfold GetAccessToken refresh at hres hcalls
    by_cases hv : tmValid st now
    · simp [hv] at hres
      have : st.accessToken ≠ "" ∧ now + 300 < st.expiry := by
        have := hv
        unfold tmValid at this
        simpa using this
      exact ⟨hres.symm, this⟩
    · simp [hv] at hres hcalls
      cases refreshTok with
      | none => simp at hres
      | some rt => cases outcome <;> simp_all
  · intro st now refreshTok outcome hv t hres
    unfold GetAccessToken refresh at hres ⊢
    simp [hv] at hres ⊢
    cases refreshTok with
    | none => simp at hres
    | some rt => cases outcome <;> simp_all

/-- C4 witness: with an empty cache a returned token comes from exactly
one refresh call. -/
theorem claim_c4_token_margin_witness :
    (GetAccessToken ⟨"", 0⟩ 0 (some "rt") (.ok "tok" 3600)).httpCalls = 1 :=
  claim_c4_token_margin.2 ⟨"", 0⟩ 0 (some "rt") (.ok "tok" 3600) rfl "tok" rfl

/-- Helper for C8: once the cache holds a valid token at time `now`,
every further serialized caller takes the double-checked fast path: no
refresh HTTP call, same token. -/
theorem runRefreshCallers_valid (now : Int) (refreshTok : Option String)
    (outcome : RefreshOutcome) :
    ∀ (m : Nat) (st : TMState), tmValid st now = true →
      runRefreshCallers m st now refreshTok outcome =
        (List.replicate m (.ok st.accessToken), st, 0) := by
  intro m
  induction m with
  | zero => intro st hv; rfl
  | succ m ih =>
    intro st hv
    have hr : refresh st now refreshTok outcome = ⟨.ok st.accessToken, st, 0⟩ := by
      unfold refresh; simp [hv]
    simp [runRefreshCallers, hr, ih st hv, List.replicate_succ]

/-- C8: N serialized callers racing an invalid cached token issue
exactly one refresh HTTP request and all receive the same refreshed
token (the mutex in token.go serializes the `refresh` critical sections;
the model executes them in that serial order). -/
theorem claim_c8_single_flight (n : Nat) (st : TMState) (now : Int) (rt : String)
    (tok : String) (expiresIn : Int)
    (hn : 0 < n) (hstale : tmValid st now = false) (htok : tok ≠ "")
    (hexp : 300 < expiresIn) :
    (runRefreshCallers n st now (some rt) (.ok tok expiresIn)).2.2 = 1 ∧
    (runRefreshCallers n st now (some rt) (.ok tok expiresIn)).1 =
      List.replicate n (.ok tok) := by
  cases n with
  | zero => omega
  | succ m =>
    have hr : refresh st now (some rt) (.ok tok expiresIn) =
        ⟨.ok tok, ⟨tok, now + expiresIn⟩, 1⟩ := by
      unfold refresh; simp [hstale]
    have hv : tmValid ⟨tok, now + expiresIn⟩ now = true := by
      unfold tmValid; simp [htok]; omega
    have hrest := runRefreshCallers_valid now (some rt) (.ok tok expiresIn) m
      ⟨tok, now + expiresIn⟩ hv
    simp [runRefreshCallers, hr, hrest, List.replicate_succ]

/-- C8 witness: three concrete callers, one refresh call, identical
results. -/
theorem claim_c8_single_flight_witness :
    (runRefreshCallers 3 ⟨"old", 100⟩ 0 (some "rt") (.ok "fresh" 3600)).2.2 = 1 ∧
    (runRefreshCallers 3 ⟨"old", 100⟩ 0 (some "rt") (.ok "fresh" 3600)).1 =
      List.replicate 3 (.ok "fresh") :=
  claim_c8_single_flight 3 ⟨"old", 100⟩ 0 "rt" "fresh" 3600 (by decide) (by decide)
    (by decide) (by decide)

/-- Helper for C6: the indexed walk leaves every position untouched or
resolved according to the parallel-resolution cap. -/
theorem resolveURLsFrom_getElem (cache : List (String × String)) (net : ResolveNet) :
    ∀ (urls : List String) (k i : Nat),
      (resolveURLsFrom cache net k urls)[i]? =
        (urls[i]?).map
          (fun u => if k + i < maxParallelResolves then (ResolveURL cache net u).1 else u) := by
  intro urls
  induction urls with
  | nil => intro k i; simp [resolveURLsFrom]
  | cons u rest ih =>
    intro k i
    cases i with
    | zero => simp [resolveURLsFrom]
    | succ j =>
      have := ih (k + 1) j
      simp only [resolveURLsFrom, List.getElem?_cons_succ]
      rw [this]
      have harith : k + 1 + j = k + (j + 1) := by omega
      rw [harith]

/-- Helper for C6: length preservation of the indexed walk. -/
theorem resolveURLsFrom_length (cache : List (String × String)) (net : ResolveNet) :
    ∀ (urls : List String) (k : Nat),
      (resolveURLsFrom cache net k urls).length = urls.length := by
  intro urls
  induction urls with
  | nil => intro k; rfl
  | cons u rest ih => intro k; simp [resolveURLsFrom, ih]

/-- C6: `ResolveURLs` preserves length and order; positions at or beyond
the cap of 10 keep the original URL; positions under the cap get the
single-URL resolution; a non-redirect URL resolves to itself with zero
network calls; and a redirect URL missing the cache whose HEAD and GET
both fail comes back as the original URL. -/
theorem claim_c6_resolver :
    (∀ cache net urls, (ResolveURLs cache net urls).length = urls.length) ∧
    (∀ cache net urls i, maxParallelResolves ≤ i →
        (ResolveURLs cache net urls)[i]? = urls[i]?) ∧
    (∀ cache net urls i, i < maxParallelResolves →
        (ResolveURLs cache net urls)[i]? =
          (urls[i]?).map (fun u => (ResolveURL cache net u).1)) ∧
    (∀ cache net u, isVertexRedirectURL u = false → ResolveURL cache net u = (u, 0)) ∧
    (∀ cache net u, isVertexRedirectURL u = true →
        cache.find? (fun kv => kv.1 = u) = none →
        net.headFinal u = none → net.getFinal u = none →
        (ResolveURL cache net u).1 = u) := by
  refine ⟨?_, ?_, ?_, ?_, ?_⟩
  · intro cache net urls; exact resolveURLsFrom_length cache net urls 0
  · intro cache net urls i hi
    unfold ResolveURLs
    rw [resolveURLsFrom_getElem]
    have h : ¬ i < maxParallelResolves := by omega
    simp [h]
  · intro cache net urls i hi
    unfold ResolveURLs
    rw [resolveURLsFrom_getElem]
    simp [hi]
  · intro cache net u h
    unfold ResolveURL
    simp [h]
  · intro cache net u hv hc hh hg
    unfold ResolveURL doResolve doResolveGet
    simp [hv, hc, hh, hg]

/-- C6 witness: concrete instances of the pass-through, double-failure
and beyond-cap behaviors. -/
theorem claim_c6_resolver_witness :
    ResolveURL [] ⟨fun _ => none, fun _ => none⟩ "https://example.com/a"
      = ("https://example.com/a", 0) ∧
    (ResolveURL [] ⟨fun _ => none, fun _ => none⟩
      "https://vertexaisearch.cloud.google.com/grounding-api-redirect/abc").1
      = "https://vertexaisearch.cloud.google.com/grounding-api-redirect/abc" ∧
    (ResolveURLs [] ⟨fun _ => none, fun _ => none⟩ (List.replicate 12 "u"))[11]?
      = (List.replicate 12 "u")[11]? :=
  ⟨claim_c6_resolver.2.2.2.1 [] ⟨fun _ => none, fun _ => none⟩ _ (by decide),
    claim_c6_resolver.2.2.2.2 [] ⟨fun _ => none, fun _ => none⟩ _ (by decide) rfl rfl rfl,
    claim_c6_resolver.2.1 [] ⟨fun _ => none, fun _ => none⟩ _ 11 (by decide)⟩

/-- Helper for C9: under a positive cooldown, when the starting entry's
last failure is stamped `now` and every other ring slot is cooling down,
the failover scan reports no usable credential. -/
theorem scanNext_false_of_all_cooling (entries : List AuthEntry) (cooldown now : Int)
    (start : Nat) (hcd : 0 < cooldown)
    (hstart : ∀ e, entries[start]? = some e → e.lastFail = now)
    (hothers : ∀ j, j ≠ start → ∀ e, entries[j]? = some e →
        amAvailable e now cooldown = false) :
    ∀ (fuel i : Nat), (scanNext entries cooldown now start i fuel).1 = false := by
  intro fuel
  induction fuel with
  | zero => intro i; rfl
  | succ f ih =>
    intro i
    unfold scanNext
    cases hnext : entries[(i + 1) % entries.length]? with
    | none => rfl
    | some e =>
      by_cases hs : (i + 1) % entries.length = start
      · have he : e.lastFail = now := hstart e (hs ▸ hnext)
        have hlt : ¬ cooldown ≤ now - e.lastFail := by rw [he]; omega
        simp [hs, hlt]
      · have hav := hothers _ hs e hnext
        simp [hs, hav, ih]

/-- Helper for C9: a successful scan never lands back on the starting
entry when the cooldown is positive (the fallback branch is dead for
positive cooldowns). -/
theorem scanNext_true_ne_start (entries : List AuthEntry) (cooldown now : Int)
    (start : Nat) (hcd : 0 < cooldown)
    (hstart : ∀ e, entries[start]? = some e → e.lastFail = now) :
    ∀ (fuel i : Nat), (scanNext entries cooldown now start i fuel).1 = true →
      (scanNext entries cooldown now start i fuel).2 ≠ start := by
  intro fuel
  induction fuel with
  | zero => intro i h; simp [scanNext] at h
  | succ f ih =>
    intro i h
    unfold scanNext at h ⊢
    cases hnext : entries[(i + 1) % entries.length]? with
    | none => rw [hnext] at h; simp at h
    | some e =>
      rw [hnext] at h
      by_cases hs : (i + 1) % entries.length = start
      · have he : e.lastFail = now := hstart e (hs ▸ hnext)
        have hlt : ¬ cooldown ≤ now - e.lastFail := by rw [he]; omega
        simp [hs, hlt] at h
      · by_cases hav : amAvailable e now cooldown = true
        · simp [hs, hav]
        · simp only [Bool.not_eq_true] at hav
          simp [hs, hav] at h ⊢
          exact ih _ h

/-- C9: when every other credential entry has failed recently (positive
failure count, last failure inside the positive cooldown window),
`MarkCurrentFailed` returns false at once; and whenever it returns true
the selected entry differs from the starting one — the same-entry
fallback can never fire within the call, because the starting entry's
last-failure stamp is the current time. -/
theorem claim_c9_mark_current_failed :
    (∀ (st : AMState) (now : Int), 0 < st.failCooldown →
        st.currentIndex < st.entries.length →
        (∀ j, j < st.entries.length → j ≠ st.currentIndex →
          ∀ e, st.entries[j]? = some e →
            0 < e.failCount ∧ now - e.lastFail < st.failCooldown) →
        (MarkCurrentFailed st now).1 = false) ∧
    (∀ (st : AMState) (now : Int), 0 < st.failCooldown →
        (MarkCurrentFailed st now).1 = true →
        (MarkCurrentFailed st now).2.currentIndex ≠ st.currentIndex) := by
  constructor
  · intro st now hcd hidx hothers
    unfold MarkCurrentFailed
    have hne : ¬ st.entries.length = 0 := by omega
    rw [if_neg hne]
    cases hcur : st.entries[st.currentIndex]? with
    | none =>
      have := List.getElem?_eq_none_iff.mp hcur
      omega
    | some entry =>
      apply scanNext_false_of_all_cooling _ _ _ _ hcd
      · intro e he
        rw [List.getElem?_set_self (by simpa using hidx)] at he
        simp only [Option.some.injEq] at he
        rw [← he]
      · intro j hj e he
        rw [List.getElem?_set_ne (fun hh => hj hh.symm)] at he
        have hjlen : j < st.entries.length := (List.getElem?_eq_some.mp he).1
        have hcool := hothers j hjlen hj e he
        have h1 : ¬ e.failCount = 0 := by omega
        have h2 : ¬ st.failCooldown ≤ now - e.lastFail := by omega
        unfold amAvailable
        simp [h1, h2]
  · intro st now hcd h
    unfold MarkCurrentFailed at h ⊢
    by_cases hlen : st.entries.length = 0
    · rw [if_pos hlen] at h; simp at h
    · rw [if_neg hlen] at h ⊢
      cases hcur : st.entries[st.currentIndex]? with
      | none => rw [hcur] at h; simp at h
      | some entry =>
        rw [hcur] at h
        apply scanNext_true_ne_start _ _ _ _ hcd
        · intro e he
          rw [List.getElem?_set_self (by simpa using (List.getElem?_eq_some.mp hcur).1)] at he
          simp only [Option.some.injEq] at he
          rw [← he]
        · exact h

/-- C9 witness: a single-entry store (scenario: nothing to rotate to)
reports total failure immediately. -/
theorem claim_c9_mark_current_failed_witness :
    (MarkCurrentFailed ⟨[⟨"a.json", "rt", "", 0, 0⟩], 0, 300⟩ 1000).1 = false := by
  apply claim_c9_mark_current_failed.1 _ 1000 (by decide) (by decide)
  intro j hj hne e he
  simp at hj
  exact absurd hj hne

/-- Helper for C2: the loop never makes more attempts than it has fuel. -/
theorem searchLoop_le (exec : Nat → Except GoErr String) (rot : Nat → Bool) :
    ∀ (f a : Nat) (last : Option GoErr), (searchLoop exec rot a f last).2.1 ≤ f := by
  intro f
  induction f with
  | zero => intro a last; simp [searchLoop]
  | succ f ih =>
    intro a last
    simp only [searchLoop]
    cases hA : exec a with
    | ok body => simp
    | error e =>
      by_cases h0 : isAuthError e = true
      · by_cases hr : rot a = true
        · simp only [h0, hr, if_true]
          have := ih (a + 1) (some e)
          simp
          omega
        · simp [h0, hr]
      · simp only [Bool.not_eq_true] at h0
        simp [h0]

/-- Helper for C2: with fuel left, the loop always makes at least one
attempt. -/
theorem searchLoop_pos (exec : Nat → Except GoErr String) (rot : Nat → Bool) :
    ∀ (f a : Nat) (last : Option GoErr), 0 < f →
      0 < (searchLoop exec rot a f last).2.1 := by
  intro f
  cases f with
  | zero => intro a last h; omega
  | succ f =>
    intro a last _
    simp only [searchLoop]
    cases hA : exec a with
    | ok body => simp
    | error e =>
      by_cases h0 : isAuthError e = true
      · by_cases hr : rot a = true
        · simp [h0, hr]
        · simp [h0, hr]
      · simp only [Bool.not_eq_true] at h0
        simp [h0]

/-- Helper for C2: a non-auth failure at attempt `a + k` ends the call
right there with that error. -/
theorem searchLoop_nonauth (exec : Nat → Except GoErr String) (rot : Nat → Bool) :
    ∀ (f a : Nat) (last : Option GoErr) (k : Nat) (e : GoErr),
      k < (searchLoop exec rot a f last).2.1 →
      exec (a + k) = .error e → isAuthError e = false →
      (searchLoop exec rot a f last).2.1 = k + 1 ∧
      (searchLoop exec rot a f last).1 = .nonAuthError e := by
  intro f
  induction f with
  | zero => intro a last k e hk _ _; simp [searchLoop] at hk
  | succ f ih =>
    intro a last k e hk hexec hauth
    simp only [searchLoop] at hk ⊢
    cases hA : exec a with
    | ok body =>
      rw [hA] at hk
      simp at hk
      rw [show k = 0 by omega, Nat.add_zero] at hexec
      rw [hA] at hexec
      exact Except.noConfusion hexec
    | error e0 =>
      rw [hA] at hk
      by_cases h0 : isAuthError e0 = true
      · by_cases hr : rot a = true
        · simp only [h0, hr, if_true] at hk ⊢
          cases k with
          | zero =>
            rw [Nat.add_zero, hA] at hexec
            simp only [Except.error.injEq] at hexec
            rw [← hexec] at hauth
            rw [h0] at hauth
            exact Bool.noConfusion hauth
          | succ j =>
            have hk' : j < (searchLoop exec rot (a + 1) f (some e0)).2.1 := by omega
            have hex' : exec (a + 1 + j) = .error e := by
              rw [show a + 1 + j = a + (j + 1) by omega]; exact hexec
            have hres := ih (a + 1) (some e0) j e hk' hex' hauth
            refine ⟨?_, ?_⟩
            · simp [hres.1]
            · simp [hres.2]
        · simp only [Bool.not_eq_true] at hr
          simp only [h0, hr, if_true, Bool.false_eq_true, if_false] at hk ⊢
          simp at hk
          rw [show k = 0 by omega, Nat.add_zero, hA] at hexec
          simp only [Except.error.injEq] at hexec
          rw [← hexec] at hauth
          rw [h0] at hauth
          exact Bool.noConfusion hauth
      · simp only [Bool.not_eq_true] at h0
        simp only [h0, Bool.false_eq_true, if_false] at hk ⊢
        simp at hk
        rw [show k = 0 by omega, Nat.add_zero, hA] at hexec
        simp only [Except.error.injEq] at hexec
        rw [← hexec]
        simp [hk]

/-- Helper for C2: an auth failure at attempt `a + k` shows the
invalidate-and-rotate block in the trace; rotation reporting false ends
the call with the terminal all-auth-failed error; rotation reporting
true either leads to a later attempt or, with the fuel exhausted, to the
max-retries error. -/
theorem searchLoop_auth (exec : Nat → Except GoErr String) (rot : Nat → Bool) :
    ∀ (f a : Nat) (last : Option GoErr) (k : Nat) (e : GoErr),
      k < (searchLoop exec rot a f last).2.1 →
      exec (a + k) = .error e → isAuthError e = true →
      List.IsInfix
          [.attempted (a + k), .tokenInvalidated (a + k), .rotated (a + k) (rot (a + k))]
          (searchLoop exec rot a f last).2.2 ∧
      (rot (a + k) = false →
        (searchLoop exec rot a f last).2.1 = k + 1 ∧
        (searchLoop exec rot a f last).1 = .allAuthFailed e) ∧
      (rot (a + k) = true →
        (k + 1 < (searchLoop exec rot a f last).2.1 ∨
          (k + 1 = f ∧
            (searchLoop exec rot a f last).1 = .maxRetriesExceeded (some e)))) := by
  intro f
  induction f with
  | zero => intro a last k e hk _ _; simp [searchLoop] at hk
  | succ f ih =>
    intro a last k e hk hexec hauth
    simp only [searchLoop] at hk ⊢
    cases hA : exec a with
    | ok body =>
      rw [hA] at hk
      simp at hk
      rw [show k = 0 by omega, Nat.add_zero, hA] at hexec
      exact Except.noConfusion hexec
    | error e0 =>
      rw [hA] at hk
      by_cases h0 : isAuthError e0 = true
      · by_cases hr : rot a = true
        · simp only [h0, hr, if_true] at hk ⊢
          cases k with
          | zero =>
            rw [Nat.add_zero] at hexec ⊢
            rw [hA] at hexec
            simp only [Except.error.injEq] at hexec
            subst hexec
            refine ⟨?_, ?_, ?_⟩
            · rw [hr]
              exact (List.prefix_append
                [SearchEvent.attempted a, .tokenInvalidated a, .rotated a true]
                (searchLoop exec rot (a + 1) f (some e0)).2.2).isInfix
            · intro hf; rw [hr] at hf; exact Bool.noConfusion hf
            · intro _
              cases f with
              | zero => right; simp [searchLoop]
              | succ f' =>
                left
                have := searchLoop_pos exec rot (f' + 1) (a + 1) (some e0) (by omega)
                simp
                omega
          | succ j =>
            have hk' : j < (searchLoop exec rot (a + 1) f (some e0)).2.1 := by omega
            have hex' : exec (a + 1 + j) = .error e := by
              rw [show a + 1 + j = a + (j + 1) by omega]; exact hexec
            have hres := ih (a + 1) (some e0) j e hk' hex' hauth
            have hidx : a + 1 + j = a + (j + 1) := by omega
            rw [hidx] at hres
            refine ⟨?_, ?_, ?_⟩
            · exact hres.1.trans
                ((List.suffix_append
                  [SearchEvent.attempted a, .tokenInvalidated a, .rotated a true]
                  (searchLoop exec rot (a + 1) f (some e0)).2.2).isInfix)
            · intro hf
              have := hres.2.1 hf
              exact ⟨by simp [this.1], by simp [this.2]⟩
            · intro ht
              rcases hres.2.2 ht with hlt | ⟨hf, hout⟩
              · left; simp; omega
              · right; exact ⟨by omega, by simp [hout]⟩
        · simp only [Bool.not_eq_true] at hr
          simp only [h0, hr, if_true, Bool.false_eq_true, if_false] at hk ⊢
          simp at hk
          rw [show k = 0 by omega] at hexec ⊢
          rw [Nat.add_zero] at hexec ⊢
          rw [hA] at hexec
          simp only [Except.error.injEq] at hexec
          subst hexec
          refine ⟨?_, ?_, ?_⟩
          · rw [hr]
          · intro _; exact ⟨rfl, rfl⟩
          · intro ht; rw [hr] at ht; exact Bool.noConfusion ht
      · simp only [Bool.not_eq_true] at h0
        simp only [h0, Bool.false_eq_true, if_false] at hk ⊢
        simp at hk
        rw [show k = 0 by omega, Nat.add_zero, hA] at hexec
        simp only [Except.error.injEq] at hexec
        rw [← hexec] at hauth
        rw [h0] at hauth
        exact Bool.noConfusion hauth

/-- C2: `ExecuteWebSearch` makes at most 6 backend attempts; a non-auth
failure ends the call at once with that error; an auth failure shows the
token-invalidate-then-rotate block in the trace, aborts with a terminal
error when rotation reports no credential, retries when rotation reports
one, and exhausting all six attempts yields the max-retries error. -/
theorem claim_c2_retry_loop (payloadLen : Nat) (exec : Nat → Except GoErr String)
    (rot : Nat → Bool) (hp : payloadLen ≠ 0) :
    (ExecuteWebSearch payloadLen exec rot).2.1 ≤ 6 ∧
    (∀ k e, k < (ExecuteWebSearch payloadLen exec rot).2.1 →
      exec k = .error e → isAuthError e = false →
      (ExecuteWebSearch payloadLen exec rot).2.1 = k + 1 ∧
      (ExecuteWebSearch payloadLen exec rot).1 = .nonAuthError e) ∧
    (∀ k e, k < (ExecuteWebSearch payloadLen exec rot).2.1 →
      exec k = .error e → isAuthError e = true →
      List.IsInfix [.attempted k, .tokenInvalidated k, .rotated k (rot k)]
        (ExecuteWebSearch payloadLen exec rot).2.2 ∧
      (rot k = false →
        (ExecuteWebSearch payloadLen exec rot).2.1 = k + 1 ∧
        (ExecuteWebSearch payloadLen exec rot).1 = .allAuthFailed e) ∧
      (rot k = true →
        (k + 1 < (ExecuteWebSearch payloadLen exec rot).2.1 ∨
          (k + 1 = 6 ∧
            (ExecuteWebSearch payloadLen exec rot).1 = .maxRetriesExceeded (some e))))) := by
  unfold ExecuteWebSearch maxRetries
  rw [if_neg hp]
  refine ⟨searchLoop_le exec rot 6 0 none, ?_, ?_⟩
  · intro k e hk hexec hauth
    have := searchLoop_nonauth exec rot 6 0 none k e hk (by simpa using hexec) hauth
    exact this
  · intro k e hk hexec hauth
    have := searchLoop_auth exec rot 6 0 none k e hk (by simpa using hexec) hauth
    simpa using this

/-- C2 witness: a single 401 on a store with nothing to rotate to ends
the call after exactly one attempt with the terminal error, and the
trace shows the invalidate-and-rotate block. -/
theorem claim_c2_retry_loop_witness :
    (ExecuteWebSearch 10 (fun _ => .error (.authError 401 "h" 3)) (fun _ => false)).2.1
        = 0 + 1 ∧
    (ExecuteWebSearch 10 (fun _ => .error (.authError 401 "h" 3)) (fun _ => false)).1
        = .allAuthFailed (.authError 401 "h" 3) := by
  have h := claim_c2_retry_loop 10 (fun _ => .error (.authError 401 "h" 3))
    (fun _ => false) (by decide)
  exact (h.2.2 0 (.authError 401 "h" 3) (by decide) rfl rfl).2.1 rfl

/-- C3 counterexample: a grounding support with an in-range first chunk
index and a non-empty referenced URL but empty cited text yields no
citation, so emission is not equivalent to the claimed
index-in-range-and-URL-non-empty condition alone. -/
theorem claim_c3_counterexample :
    buildCitation (Json.obj [("groundingChunkIndices", Json.arr [Json.num 0])])
        [⟨"https://example.com", "Example", "e"⟩] = none ∧
    citationClaimCondition (Json.obj [("groundingChunkIndices", Json.arr [Json.num 0])])
        [⟨"https://example.com", "Example", "e"⟩] = true := by
  exact ⟨rfl, rfl⟩

/-- C3 amended: in both response modes a citation is emitted iff the
support's cited text is non-empty AND its first referenced
grounding-chunk index lies in `[0, len results)` with a non-empty
referenced URL (an empty index list means no citation); failing supports
are silently skipped by the total filtering functions, and both modes
emit at most one citation per grounding support. -/
theorem claim_c3_citation_rules :
    (∀ support results,
        (buildCitation support results).isSome =
          (decide ((support.getPath ["segment", "text"]).gstr ≠ "") &&
            citationClaimCondition support results)) ∧
    (∀ supports results,
        (buildCitationTextBlocks supports results).length ≤ supports.garr.length) ∧
    (∀ supports results,
        (buildCitationsForSSE supports results).length ≤ supports.garr.length) := by
  refine ⟨?_, ?_, ?_⟩
  · intro support results
    unfold buildCitation citationClaimCondition
    by_cases hct : (support.getPath ["segment", "text"]).gstr = ""
    · simp [hct]
    · cases hidx : (support.getKey "groundingChunkIndices").garr with
      | nil => simp [hct, hidx]
      | cons first rest =>
        by_cases hneg : first.gint < 0 ∨ (results.length : Int) ≤ first.gint
        · have h1 : ¬ (0 ≤ first.gint ∧ first.gint < (results.length : Int)) := by omega
          simp [hct, hidx, hneg]
          omega
        · have h0 : 0 ≤ first.gint := by omega
          have h1 : first.gint < (results.length : Int) := by omega
          have hb : first.gint.toNat < results.length := by omega
          by_cases hurl : results[first.gint.toNat].url = ""
          · simp [hct, hidx, hneg, h0, h1, hurl, List.getD_eq_getElem results default hb]
          · simp [hct, hidx, hneg, h0, h1, hurl, List.getD_eq_getElem results default hb]
  · intro supports results
    unfold buildCitationTextBlocks
    by_cases hA : supports.isArr
    · simp [hA]
      exact List.length_filterMap_le _ _
    · simp [hA]
  · intro supports results
    unfold buildCitationsForSSE
    by_cases hA : supports.isArr
    · simp [hA]
      exact List.length_filterMap_le _ _
    · simp [hA]

/-- Helper for C5: `mapInsert` reads back like a pointwise update. -/
theorem mapGet_mapInsert (k v : String) :
    ∀ (m : List (String × String)) (q : String),
      mapGet (mapInsert m k v) q = if q = k then v else mapGet m q := by
  intro m
  induction m with
  | nil =>
    intro q
    by_cases hq : q = k
    · simp [mapInsert, mapGet, hq]
    · have hkq : ¬ k = q := fun hh => hq hh.symm
      simp [mapInsert, mapGet, hq, hkq]
  | cons kv rest ih =>
    intro q
    by_cases hk : kv.1 = k
    · by_cases hq : q = k
      · simp [mapInsert, mapGet, hk, hq]
      · have hkq : ¬ k = q := fun hh => hq hh.symm
        have hkvq : ¬ kv.1 = q := by rw [hk]; exact hkq
        simp [mapInsert, mapGet, hk, hq, hkq, hkvq]
    · by_cases hkvq : kv.1 = q
      · have hq : ¬ q = k := by rw [← hkvq]; exact fun hh => hk hh
        simp [mapInsert, mapGet, hk, hkvq, hq]
      · simp [mapInsert, mapGet, hk, hkvq, ih q]

/-- Helper for C5: a block defining `i` updates the pre-pass map at `i`
to its own name. -/
theorem mapGet_tmStep_def (m : List (String × String)) (i : String) (item : Json)
    (hdef : definesToolId i item = true) :
    mapGet (tmStep m item) i = (item.getKey "name").gstr := by
  unfold definesToolId at hdef
  simp only [Bool.and_eq_true, decide_eq_true_eq] at hdef
  obtain ⟨⟨⟨hty, hid⟩, hidne⟩, hnmne⟩ := hdef
  unfold tmStep
  rw [if_pos (by simpa using hty), if_pos ⟨hidne, hnmne⟩]
  rw [hid, mapGet_mapInsert]
  simp

/-- Helper for C5: a block not defining `i` leaves the pre-pass map's
value at `i` unchanged. -/
theorem mapGet_tmStep_not_def (m : List (String × String)) (i : String) (item : Json)
    (hdef : definesToolId i item = false) :
    mapGet (tmStep m item) i = mapGet m i := by
  unfold tmStep
  by_cases hty : (item.getKey "type").gstr = "tool_use"
  · rw [if_pos (by simpa using hty)]
    by_cases hins : (item.getKey "id").gstr ≠ "" ∧ (item.getKey "name").gstr ≠ ""
    · rw [if_pos hins]
      have hidne : ¬ (item.getKey "id").gstr = i := by
        intro hid
        unfold definesToolId at hdef
        simp [hty, hid, hins.1, hins.2] at hdef
        rw [← hid] at hdef
        exact hins.1 hdef
      rw [mapGet_mapInsert]
      rw [if_neg (fun hh => hidne hh.symm)]
    · rw [if_neg hins]
  · rw [if_neg (by simpa using hty)]

/-- Helper for C5: folding the pre-pass step over blocks none of which
redefine `i` to a different name keeps the map's value at `i`. -/
theorem mapGet_foldl_tmStep_preserve (i n : String) :
    ∀ (l : List Json) (m : List (String × String)),
      (∀ item ∈ l, definesToolId i item = true → (item.getKey "name").gstr = n) →
      mapGet m i = n →
      mapGet (l.foldl tmStep m) i = n := by
  intro l
  induction l with
  | nil => intro m _ hm; simpa using hm
  | cons a l ih =>
    intro m hcons hm
    simp only [List.foldl_cons]
    cases hdef : definesToolId i a with
    | true =>
      have hname := hcons a (by simp) hdef
      exact ih (tmStep m a)
        (fun it hit hd => hcons it (by simp [hit]) hd)
        (by rw [mapGet_tmStep_def m i a hdef, hname])
    | false =>
      exact ih (tmStep m a)
        (fun it hit hd => hcons it (by simp [hit]) hd)
        (by rw [mapGet_tmStep_not_def m i a hdef, hm])

/-- Helper for C5: if some block in the fold defines `i` with name `n`,
and every block defining `i` agrees on `n`, the folded map resolves `i`
to `n` whatever the starting map was. -/
theorem mapGet_foldl_tmStep_resolve (i n : String) :
    ∀ (l : List Json) (m : List (String × String)) (item : Json),
      item ∈ l → definesToolId i item = true → (item.getKey "name").gstr = n →
      (∀ it ∈ l, definesToolId i it = true → (it.getKey "name").gstr = n) →
      mapGet (l.foldl tmStep m) i = n := by
  intro l
  induction l with
  | nil => intro m item hmem; simp at hmem
  | cons a l ih =>
    intro m item hmem hdef hname hcons
    simp only [List.foldl_cons]
    cases hda : definesToolId i a with
    | true =>
      have hna := hcons a (by simp) hda
      exact mapGet_foldl_tmStep_preserve i n l (tmStep m a)
        (fun it hit hd => hcons it (by simp [hit]) hd)
        (by rw [mapGet_tmStep_def m i a hda, hna])
    | false =>
      have hne : item ≠ a := by
        intro hh; rw [hh] at hdef; rw [hdef] at hda; exact Bool.noConfusion hda
      have hmem' : item ∈ l := by
        rcases List.mem_cons.mp hmem with h | h
        · exact absurd h hne
        · exact h
      exact ih (tmStep m a) item hmem' hdef hname
        (fun it hit hd => hcons it (by simp [hit]) hd)

/-- Helper for C5: the nested per-message fold of the pre-pass equals a
flat fold over all content blocks of all messages. -/
theorem buildMap_eq_flat_fold :
    ∀ (msgs : List Json) (m : List (String × String)),
      msgs.foldl
        (fun m msg =>
          let content := msg.getKey "content"
          if ¬ content.isArr then m
          else content.garr.foldl tmStep m)
        m
      = (msgs.flatMap contentItems).foldl tmStep m := by
  intro msgs
  induction msgs with
  | nil => intro m; rfl
  | cons msg rest ih =>
    intro m
    simp only [List.foldl_cons, List.flatMap_cons, List.foldl_append]
    rw [ih]
    congr 1
    unfold contentItems
    by_cases hA : (msg.getKey "content").isArr
    · simp [hA]
    · simp [hA]

/-- Helper for C5: the pre-pass map resolves `i` to `n` whenever some
content block anywhere in the message list defines it so and no other
defining block disagrees. -/
theorem mapGet_buildToolIdToNameMap (messages : Json) (i n : String) (d : Json)
    (hA : messages.isArr = true)
    (hmem : d ∈ messages.garr.flatMap contentItems)
    (hdef : definesToolId i d = true)
    (hname : (d.getKey "name").gstr = n)
    (hcons : ∀ it ∈ messages.garr.flatMap contentItems,
      definesToolId i it = true → (it.getKey "name").gstr = n) :
    mapGet (buildToolIdToNameMap messages) i = n := by
  unfold buildToolIdToNameMap
  rw [if_neg (by simp [hA])]
  rw [buildMap_eq_flat_fold]
  exact mapGet_foldl_tmStep_resolve i n _ [] d hmem hdef hname hcons

/-- Helper for C5: with no defining block anywhere, the pre-pass map is
empty at `i`. -/
theorem mapGet_buildToolIdToNameMap_empty (messages : Json) (i : String)
    (hnone : ∀ it ∈ messages.garr.flatMap contentItems,
      definesToolId i it = false) :
    mapGet (buildToolIdToNameMap messages) i = "" := by
  unfold buildToolIdToNameMap
  by_cases hA : messages.isArr
  · rw [if_neg (by simp [hA])]
    rw [buildMap_eq_flat_fold]
    exact mapGet_foldl_tmStep_preserve i "" _ []
      (fun it hit hd => absurd hd (by simp [hnone it hit])) rfl
  · rw [if_pos (by simp [hA])]
    rfl

/-- Helper for C5: on a `tool_result` block the per-segment mapping
emits exactly one function response whose name is the map lookup with
the raw identifier as fallback. -/
theorem transformContentBlock_tool_result (block : Json)
    (m : List (String × String))
    (hty : (block.getKey "type").gstr = "tool_result") :
    transformContentBlock block m =
      [.functionResponse
        (if mapGet m ((block.getKey "tool_use_id").gstr) = ""
          then (block.getKey "tool_use_id").gstr
          else mapGet m ((block.getKey "tool_use_id").gstr))
        (extractToolResultContent block) ((block.getKey "tool_use_id").gstr)] := by
  unfold transformContentBlock
  rw [hty]
  rw [if_neg (by decide), if_neg (by decide), if_pos rfl]

/-- Helper for C5: the per-turn parts fold is the flat concatenation of
the per-block parts. -/
theorem foldl_append_parts (m : List (String × String)) :
    ∀ (items : List Json) (acc : List GPart),
      items.foldl (fun acc item => acc ++ transformContentBlock item m) acc =
        acc ++ items.flatMap (fun item => transformContentBlock item m) := by
  intro items
  induction items with
  | nil => intro acc; simp
  | cons a items ih => intro acc; simp [ih]

/-- Helper for C5: a turn with parts appears in the filtered turn list
whenever its message does. -/
theorem mem_transformMsgList (m : List (String × String)) :
    ∀ (msgs : List Json) (msg : Json), msg ∈ msgs →
      (transformTurn m msg).parts ≠ [] →
      transformTurn m msg ∈ transformMsgList m msgs := by
  intro msgs
  induction msgs with
  | nil => intro msg hmem; simp at hmem
  | cons a msgs ih =>
    intro msg hmem hne
    rcases List.mem_cons.mp hmem with h | h
    · rw [← h]
      unfold transformMsgList
      rw [if_neg (by simpa using hne)]
      exact List.mem_cons_self _ _
    · unfold transformMsgList
      by_cases he : (transformTurn m a).parts.isEmpty
      · rw [if_pos he]
        exact ih msg h hne
      · rw [if_neg he]
        exact List.mem_cons_of_mem _ (ih msg h hne)

/-- Helper for C5: the filtered turn list is a sublist of the per-turn
mapping of the message list, so turn order is preserved. -/
theorem transformMsgList_sublist (m : List (String × String)) :
    ∀ (msgs : List Json),
      List.Sublist (transformMsgList m msgs) (msgs.map (transformTurn m)) := by
  intro msgs
  induction msgs with
  | nil => simp [transformMsgList]
  | cons a msgs ih =>
    unfold transformMsgList
    by_cases he : (transformTurn m a).parts.isEmpty
    · rw [if_pos he]
      simp only [List.map_cons]
      exact List.Sublist.cons _ ih
    · rw [if_neg he]
      simp only [List.map_cons]
      exact List.Sublist.cons₂ _ ih

/-- C5: the transformer resolves every tool-result's function name
through a pre-pass over the whole turn list — an invocation anywhere
(any earlier or later turn) defining the identifier names the response;
with no defining invocation the raw identifier is the fallback — and
the output preserves turn order (it is a sublist of the in-order
per-turn mapping). -/
theorem claim_c5_transformer :
    (∀ (payload msg item d : Json) (i n : String),
      (payload.getKey "messages").isArr = true →
      msg ∈ (payload.getKey "messages").garr →
      item ∈ contentItems msg →
      (item.getKey "type").gstr = "tool_result" →
      (item.getKey "tool_use_id").gstr = i →
      d ∈ ((payload.getKey "messages").garr).flatMap contentItems →
      definesToolId i d = true →
      (d.getKey "name").gstr = n →
      (∀ it ∈ ((payload.getKey "messages").garr).flatMap contentItems,
        definesToolId i it = true → (it.getKey "name").gstr = n) →
      ∃ gc ∈ TransformMessages payload,
        GPart.functionResponse n (extractToolResultContent item) i ∈ gc.parts) ∧
    (∀ (payload msg item : Json) (i : String),
      (payload.getKey "messages").isArr = true →
      msg ∈ (payload.getKey "messages").garr →
      item ∈ contentItems msg →
      (item.getKey "type").gstr = "tool_result" →
      (item.getKey "tool_use_id").gstr = i →
      (∀ it ∈ ((payload.getKey "messages").garr).flatMap contentItems,
        definesToolId i it = false) →
      ∃ gc ∈ TransformMessages payload,
        GPart.functionResponse i (extractToolResultContent item) i ∈ gc.parts) ∧
    (∀ payload : Json,
      List.Sublist (TransformMessages payload)
        (((payload.getKey "messages").garr).map
          (transformTurn (buildToolIdToNameMap (payload.getKey "messages"))))) := by
  have hturn : ∀ (m : List (String × String)) (msg item : Json) (i gname : String),
      item ∈ contentItems msg →
      (item.getKey "type").gstr = "tool_result" →
      (item.getKey "tool_use_id").gstr = i →
      (if mapGet m i = "" then i else mapGet m i) = gname →
      GPart.functionResponse gname (extractToolResultContent item) i
        ∈ (transformTurn m msg).parts := by
    intro m msg item i gname hitem hty hid hres
    unfold contentItems at hitem
    by_cases hA : (msg.getKey "content").isArr
    · rw [if_neg (by simp [hA])] at hitem
      unfold transformTurn
      cases hc : msg.getKey "content" with
      | arr items =>
        simp only
        rw [foldl_append_parts]
        simp only [List.nil_append]
        apply List.mem_flatMap.mpr
        refine ⟨item, by rw [hc] at hitem; simpa [Json.garr] using hitem, ?_⟩
        rw [transformContentBlock_tool_result item m hty]
        rw [hid, hres]
        simp
      | null => rw [hc] at hA; simp [Json.isArr] at hA
      | bool b => rw [hc] at hA; simp [Json.isArr] at hA
      | num x => rw [hc] at hA; simp [Json.isArr] at hA
      | str s => rw [hc] at hA; simp [Json.isArr] at hA
      | obj kvs => rw [hc] at hA; simp [Json.isArr] at hA
    · rw [if_pos (by simp [hA])] at hitem
      simp at hitem
  refine ⟨?_, ?_, ?_⟩
  · intro payload msg item d i n hA hmsg hitem hty hid hdm hdef hname hcons
    have hmap := mapGet_buildToolIdToNameMap (payload.getKey "messages") i n d hA
      hdm hdef hname hcons
    have hnne : n ≠ "" := by
      unfold definesToolId at hdef
      simp only [Bool.and_eq_true, decide_eq_true_eq] at hdef
      rw [← hname]
      exact hdef.2
    have hpart := hturn (buildToolIdToNameMap (payload.getKey "messages")) msg item i n
      hitem hty hid (by rw [hmap]; simp [hnne])
    refine ⟨transformTurn (buildToolIdToNameMap (payload.getKey "messages")) msg, ?_, hpart⟩
    unfold TransformMessages
    rw [if_neg (by simp [hA])]
    exact mem_transformMsgList _ _ msg hmsg
      (fun hnil => by rw [hnil] at hpart; simp at hpart)
  · intro payload msg item i hA hmsg hitem hty hid hnone
    have hmap := mapGet_buildToolIdToNameMap_empty (payload.getKey "messages") i hnone
    have hpart := hturn (buildToolIdToNameMap (payload.getKey "messages")) msg item i i
      hitem hty hid (by rw [hmap]; simp)
    refine ⟨transformTurn (buildToolIdToNameMap (payload.getKey "messages")) msg, ?_, hpart⟩
    unfold TransformMessages
    rw [if_neg (by simp [hA])]
    exact mem_transformMsgList _ _ msg hmsg
      (fun hnil => by rw [hnil] at hpart; simp at hpart)
  · intro payload
    unfold TransformMessages
    by_cases hA : (payload.getKey "messages").isArr
    · rw [if_neg (by simp [hA])]
      exact transformMsgList_sublist _ _
    · rw [if_pos (by simp [hA])]
      exact List.nil_sublist _

/-- C5 witness: a tool result in the first turn is resolved through an
invocation that only appears in the second (later) turn. -/
theorem claim_c5_transformer_witness :
    ∃ gc ∈ TransformMessages (Json.obj [("messages", Json.arr [
        Json.obj [("role", Json.str "user"), ("content", Json.arr [
          Json.obj [("type", Json.str "tool_result"), ("tool_use_id", Json.str "t1"),
            ("content", Json.str "out")]])],
        Json.obj [("role", Json.str "assistant"), ("content", Json.arr [
          Json.obj [("type", Json.str "tool_use"), ("id", Json.str "t1"),
            ("name", Json.str "get_weather"), ("input", Json.obj [])]])]])]),
      GPart.functionResponse "get_weather" "out" "t1" ∈ gc.parts := by
  refine claim_c5_transformer.1
    (Json.obj [("messages", Json.arr [
        Json.obj [("role", Json.str "user"), ("content", Json.arr [
          Json.obj [("type", Json.str "tool_result"), ("tool_use_id", Json.str "t1"),
            ("content", Json.str "out")]])],
        Json.obj [("role", Json.str "assistant"), ("content", Json.arr [
          Json.obj [("type", Json.str "tool_use"), ("id", Json.str "t1"),
            ("name", Json.str "get_weather"), ("input", Json.obj [])]])]])])
    (Json.obj [("role", Json.str "user"), ("content", Json.arr [
      Json.obj [("type", Json.str "tool_result"), ("tool_use_id", Json.str "t1"),
        ("content", Json.str "out")]])])
    (Json.obj [("type", Json.str "tool_result"), ("tool_use_id", Json.str "t1"),
      ("content", Json.str "out")])
    (Json.obj [("type", Json.str "tool_use"), ("id", Json.str "t1"),
      ("name", Json.str "get_weather"), ("input", Json.obj [])])
    "t1" "get_weather" rfl (List.mem_cons_self _ _) (List.mem_cons_self _ _) rfl rfl
    (List.mem_cons_of_mem _ (List.mem_cons_self _ _)) rfl rfl ?_
  intro it hit hd
  rcases List.mem_cons.mp hit with h | h
  · subst h
    exact absurd hd (by decide)
  · rcases List.mem_cons.mp h with h2 | h2
    · subst h2; rfl
    · simp at h2

/-- Helper for C7: matched stops survive concatenation of self-matched
segments. -/
theorem stopsMatched_append {l1 l2 : List SSEEvent}
    (h1 : StopsMatched l1) (h2 : StopsMatched l2) : StopsMatched (l1 ++ l2) := by
  intro p i b hp
  by_cases hlt : p < l1.length
  · rw [List.getElem?_append_left hlt] at hp
    obtain ⟨q, hpq, hq⟩ := h1 p i b hp
    have hqlt : q < l1.length := (List.getElem?_eq_some.mp hq).1
    exact ⟨q, hpq, by rw [List.getElem?_append_left hqlt]; exact hq⟩
  · push_neg at hlt
    rw [List.getElem?_append_right hlt] at hp
    obtain ⟨q, hpq, hq⟩ := h2 _ i b hp
    refine ⟨l1.length + q, by omega, ?_⟩
    rw [List.getElem?_append_right (by omega)]
    rw [show l1.length + q - l1.length = q by omega]
    exact hq

/-- Helper for C7: a segment with no block-start events is vacuously
stop-matched. -/
theorem stopsMatched_of_no_start {l : List SSEEvent}
    (h : ∀ e ∈ l, e.isBlockStart = false) : StopsMatched l := by
  intro p i b hp
  have hmem := List.getElem?_mem hp
  have := h _ hmem
  simp [SSEEvent.isBlockStart] at this

/-- Helper for C7: one open/fill/close block is stop-matched when its
middle carries no block-start. -/
theorem stopsMatched_block (i : Nat) (b : BlockKind) (mid : List SSEEvent)
    (hmid : ∀ e ∈ mid, e.isBlockStart = false) :
    StopsMatched (.blockStart i b :: (mid ++ [.blockStop i])) := by
  intro p j c hp
  cases p with
  | zero =>
    simp at hp
    refine ⟨mid.length + 1, by omega, ?_⟩
    simp [← hp.1]
  | succ q =>
    simp only [List.getElem?_cons_succ] at hp
    by_cases hlt : q < mid.length
    · rw [List.getElem?_append_left hlt] at hp
      have hmem := List.getElem?_mem hp
      have := hmid _ hmem
      simp [SSEEvent.isBlockStart] at this
    · push_neg at hlt
      rw [List.getElem?_append_right hlt] at hp
      cases h0 : q - mid.length with
      | zero => rw [h0] at hp; simp at hp
      | succ r => rw [h0] at hp; simp at hp

/-- Helper for C7: the citation triples are stop-matched. -/
theorem stopsMatched_citationEvents :
    ∀ (cs : List Citation) (i : Nat), StopsMatched (citationEvents i cs) := by
  intro cs
  induction cs with
  | nil => intro i p j c hp; simp [citationEvents] at hp
  | cons c cs ih =>
    intro i
    have hdecomp : citationEvents i (c :: cs) =
        (SSEEvent.blockStart i .textWithCitations
          :: [SSEEvent.blockDelta i (.citationsDelta c)] ++ [SSEEvent.blockStop i])
          ++ citationEvents (i + 1) cs := rfl
    rw [hdecomp]
    refine stopsMatched_append (stopsMatched_block i _ _ ?_) (ih (i + 1))
    intro e he
    rw [List.mem_singleton.mp he]
    rfl

/-- Helper for C7: the citation triples contain no server_tool_use
start. -/
theorem citationEvents_filter_stu :
    ∀ (cs : List Citation) (i : Nat),
      (citationEvents i cs).filter SSEEvent.isServerToolUseStart = [] := by
  intro cs
  induction cs with
  | nil => intro i; rfl
  | cons c cs ih =>
    intro i
    simp [citationEvents, SSEEvent.isServerToolUseStart, ih (i + 1)]

/-- Helper for C7: the citation triples carry no answer-text deltas. -/
theorem citationEvents_filterMap_text :
    ∀ (cs : List Citation) (i : Nat),
      (citationEvents i cs).filterMap SSEEvent.textDeltaStr = [] := by
  intro cs
  induction cs with
  | nil => intro i; rfl
  | cons c cs ih =>
    intro i
    simp [citationEvents, SSEEvent.textDeltaStr, ih (i + 1)]

/-- Helper for C7: chunk deltas are not block starts (and not
server_tool_use starts). -/
theorem chunkmap_filter_stu (i : Nat) :
    ∀ l : List (List Char),
      (l.map (fun ch => SSEEvent.blockDelta i (DeltaKind.textDelta (String.mk ch)))).filter
        SSEEvent.isServerToolUseStart = [] := by
  intro l
  induction l with
  | nil => rfl
  | cons a l ih => simp [SSEEvent.isServerToolUseStart, ih]

/-- Helper for C7: the chunk deltas' text payloads are exactly the
chunks. -/
theorem chunkmap_filterMap_text (i : Nat) :
    ∀ l : List (List Char),
      (l.map (fun ch => SSEEvent.blockDelta i (DeltaKind.textDelta (String.mk ch)))).filterMap
        SSEEvent.textDeltaStr = l.map (fun ch => String.mk ch) := by
  intro l
  induction l with
  | nil => rfl
  | cons a l ih => simp [SSEEvent.textDeltaStr, ih]

/-- Helper for C7: re-concatenating the rune chunks restores the
original character list (no character is lost or split). -/
theorem chunkRunes_strConcat :
    ∀ (n : Nat) (l : List Char), l.length ≤ n →
      strConcat ((chunkRunes l).map (fun ch => String.mk ch)) = String.mk l := by
  intro n
  induction n with
  | zero =>
    intro l hl
    have : l = [] := List.length_eq_zero.mp (by omega)
    subst this
    simp [chunkRunes, strConcat]
  | succ n ih =>
    intro l hl
    cases l with
    | nil => simp [chunkRunes, strConcat]
    | cons c rest =>
      rw [chunkRunes]
      rw [List.map_cons]
      show String.mk ((c :: rest).take 50) ++
        strConcat ((chunkRunes ((c :: rest).drop 50)).map (fun ch => String.mk ch)) = _
      rw [ih ((c :: rest).drop 50)
        (by simp only [List.length_drop, List.length_cons] at hl ⊢; omega)]
      show String.mk ((c :: rest).take 50 ++ (c :: rest).drop 50) = String.mk (c :: rest)
      rw [List.take_append_drop]

/-- Helper for C7: every rune chunk holds at most 50 code points. -/
theorem chunkRunes_mem_le :
    ∀ (n : Nat) (l ch : List Char), l.length ≤ n → ch ∈ chunkRunes l →
      ch.length ≤ 50 := by
  intro n
  induction n with
  | zero =>
    intro l ch hl hm
    have : l = [] := List.length_eq_zero.mp (by omega)
    subst this
    simp [chunkRunes] at hm
  | succ n ih =>
    intro l ch hl hm
    cases l with
    | nil => simp [chunkRunes] at hm
    | cons c rest =>
      rw [chunkRunes] at hm
      rcases List.mem_cons.mp hm with h | h
      · rw [h]
        simp
      · exact ih ((c :: rest).drop 50) ch
          (by simp only [List.length_drop, List.length_cons] at hl ⊢; omega) h

/-- Helper for C7: the last event of an assembly ending in a
message-delta/message-stop pair. -/
theorem getLast?_append_pair (xs : List SSEEvent) (a b : SSEEvent) :
    (xs ++ [a, b]).getLast? = some b := by
  rw [show xs ++ [a, b] = (xs ++ [a]) ++ [b] by simp]
  exact List.getLast?_concat _

/-- Helper for C7: the assembly as an explicit concatenation of
segments. -/
theorem sseAssemble_decomp (msgId model toolUseId : String)
    (it ot : Int) (q : String) (results : List WebResult)
    (cits : List Citation) (text : String) :
    sseAssemble msgId model toolUseId it ot q results cits text =
      [.messageStart msgId model it] ++
      ([.blockStart 0 (.serverToolUse toolUseId "web_search")] ++
        (if q ≠ "" then [.blockDelta 0 (.inputJson (queryJsonStr q))] else []) ++
        [.blockStop 0]) ++
      ([.blockStart 1 (.webSearchToolResult toolUseId results)] ++ [.blockStop 1]) ++
      citationEvents 2 cits ++
      (if text ≠ "" then
        [SSEEvent.blockStart (2 + cits.length) .textPlain] ++
          (chunkRunes text.toList).map
            (fun ch => SSEEvent.blockDelta (2 + cits.length) (.textDelta (String.mk ch))) ++
          [SSEEvent.blockStop (2 + cits.length)]
       else []) ++
      [.messageDelta it ot, .messageStop] := by
  by_cases hq : q ≠ "" <;> by_cases ht : text ≠ "" <;>
    simp [sseAssemble, hq, ht, List.append_assoc]

/-- Helper for C7: every block opened in the assembly is closed later
with the same index. -/
theorem sseAssemble_stops (msgId model toolUseId : String) (it ot : Int)
    (q : String) (results : List WebResult) (cits : List Citation) (text : String) :
    StopsMatched (sseAssemble msgId model toolUseId it ot q results cits text) := by
  rw [sseAssemble_decomp]
  refine stopsMatched_append (stopsMatched_append (stopsMatched_append (stopsMatched_append
    (stopsMatched_append ?_ ?_) ?_) ?_) ?_) ?_
  · exact stopsMatched_of_no_start (by intro e he; rw [List.mem_singleton.mp he]; rfl)
  · refine stopsMatched_block 0 _ _ ?_
    intro e he
    by_cases hq : q ≠ ""
    · rw [if_pos hq] at he
      rw [List.mem_singleton.mp he]
      rfl
    · rw [if_neg hq] at he
      simp at he
  · exact stopsMatched_block 1 _ [] (by intro e he; simp at he)
  · exact stopsMatched_citationEvents cits 2
  · by_cases ht : text ≠ ""
    · rw [if_pos ht]
      refine stopsMatched_block _ _ _ ?_
      intro e he
      obtain ⟨ch, hch, rfl⟩ := List.mem_map.mp he
      rfl
    · rw [if_neg ht]
      exact stopsMatched_of_no_start (by intro e he; simp at he)
  · refine stopsMatched_of_no_start ?_
    intro e he
    rcases List.mem_cons.mp he with h | h
    · rw [h]; rfl
    · rw [List.mem_singleton.mp h]; rfl

/-- Helper for C7: exactly one server_tool_use block start, at index 0. -/
theorem sseAssemble_filter_stu (msgId model toolUseId : String) (it ot : Int)
    (q : String) (results : List WebResult) (cits : List Citation) (text : String) :
    (sseAssemble msgId model toolUseId it ot q results cits text).filter
        SSEEvent.isServerToolUseStart =
      [.blockStart 0 (.serverToolUse toolUseId "web_search")] := by
  rw [sseAssemble_decomp]
  by_cases hq : q ≠ "" <;> by_cases ht : text ≠ "" <;>
    simp [hq, ht, SSEEvent.isServerToolUseStart, citationEvents_filter_stu,
      chunkmap_filter_stu, List.filter_append]

/-- Helper for C7: the assembly ends with message_stop. -/
theorem sseAssemble_last (msgId model toolUseId : String) (it ot : Int)
    (q : String) (results : List WebResult) (cits : List Citation) (text : String) :
    (sseAssemble msgId model toolUseId it ot q results cits text).getLast? =
      some .messageStop := by
  rw [sseAssemble_decomp]
  exact getLast?_append_pair _ _ _

/-- Helper for C7: the answer-text deltas concatenate back to the full
text and each stays within the 50-code-point window. -/
theorem sseAssemble_textDeltas (msgId model toolUseId : String) (it ot : Int)
    (q : String) (results : List WebResult) (cits : List Citation) (text : String) :
    strConcat ((sseAssemble msgId model toolUseId it ot q results cits text).filterMap
        SSEEvent.textDeltaStr) = text ∧
    ∀ s ∈ (sseAssemble msgId model toolUseId it ot q results cits text).filterMap
        SSEEvent.textDeltaStr, s.length ≤ 50 := by
  rw [sseAssemble_decomp]
  have hopt : (if q ≠ "" then [SSEEvent.blockDelta 0 (DeltaKind.inputJson (queryJsonStr q))]
      else []).filterMap SSEEvent.textDeltaStr = [] := by
    by_cases hq : q ≠ "" <;> simp [hq, SSEEvent.textDeltaStr]
  by_cases ht : text ≠ ""
  · rw [if_pos ht]
    simp only [List.filterMap_append, hopt, citationEvents_filterMap_text,
      chunkmap_filterMap_text]
    constructor
    · simp [SSEEvent.textDeltaStr]
      exact chunkRunes_strConcat text.toList.length text.toList (le_refl _)
    · intro s hs
      simp [SSEEvent.textDeltaStr] at hs
      obtain ⟨ch, hch, hmk⟩ := hs
      have := chunkRunes_mem_le text.toList.length text.toList ch (le_refl _) hch
      rw [← hmk]
      exact this
  · rw [if_neg ht]
    push_neg at ht
    simp only [List.filterMap_append, hopt, citationEvents_filterMap_text]
    constructor
    · simp [SSEEvent.textDeltaStr, strConcat, ht]
    · intro s hs
      simp [SSEEvent.textDeltaStr] at hs

/-- C7: every streaming conversion begins with message_start, contains
exactly one content_block_start opening a server_tool_use block and it
sits at index 0, ends with message_stop, closes every opened block later
with a matching-index content_block_stop, and chunks the answer text in
windows of 50 code points whose concatenation restores the text exactly
(so no multi-byte character is split). -/
theorem claim_c7_sse_stream (model : String) (geminiResp : Json)
    (cache : List (String × String)) (net : ResolveNet) (msgId toolUseId : String) :
    (ConvertToClaudeSSEStream model geminiResp cache net msgId toolUseId).head? =
      some (.messageStart msgId model (getUsageField geminiResp "promptTokenCount")) ∧
    (ConvertToClaudeSSEStream model geminiResp cache net msgId toolUseId).filter
        SSEEvent.isServerToolUseStart =
      [.blockStart 0 (.serverToolUse toolUseId "web_search")] ∧
    (ConvertToClaudeSSEStream model geminiResp cache net msgId toolUseId).getLast? =
      some .messageStop ∧
    StopsMatched (ConvertToClaudeSSEStream model geminiResp cache net msgId toolUseId) ∧
    strConcat ((ConvertToClaudeSSEStream model geminiResp cache net
        msgId toolUseId).filterMap SSEEvent.textDeltaStr) =
      extractTextContent geminiResp ∧
    ∀ s ∈ (ConvertToClaudeSSEStream model geminiResp cache net
        msgId toolUseId).filterMap SSEEvent.textDeltaStr, s.length ≤ 50 := by
  refine ⟨rfl, ?_, ?_, ?_, ?_, ?_⟩
  · exact sseAssemble_filter_stu _ _ _ _ _ _ _ _ _
  · exact sseAssemble_last _ _ _ _ _ _ _ _ _
  · exact sseAssemble_stops _ _ _ _ _ _ _ _ _
  · exact (sseAssemble_textDeltas _ _ _ _ _ _ _ _ _).1
  · exact (sseAssemble_textDeltas _ _ _ _ _ _ _ _ _).2

/-- C7 witness: a concrete stream ends with message_stop. -/
theorem claim_c7_sse_stream_witness :
    (ConvertToClaudeSSEStream "m" (Json.obj []) [] ⟨fun _ => none, fun _ => none⟩
      "mid" "tid").getLast? = some SSEEvent.messageStop :=
  (claim_c7_sse_stream "m" (Json.obj []) [] ⟨fun _ => none, fun _ => none⟩
    "mid" "tid").2.2.1

end CPAProxy
